import Mathlib

/-!
Verification of the gean consensus client (Go) against its specification.

The Go source is shallowly embedded: bytes are `Nat` values below 256,
32-byte roots are `Nat` values (lexicographic order on fixed-width
byte strings coincides with the numeric order of their big-endian
value), `uint64` slots are `Nat`, and fallible functions return
`Except`/`Option`.  Hashing and XMSS signatures are external
collaborators in the source and are therefore injected as explicit
function parameters.
-/

namespace Gean

/-! ### SSZ bitlist algebra (chain/statetransition bitlist helpers)

Bits are packed LSB-first into bytes; a sentinel 1-bit follows the last
data bit.  The empty bitlist is the single byte 0x01. -/

/-- Halving loop of `msbCount`, with explicit fuel so that the function is
structurally recursive.  The loop operates on a Go `byte` (a value below
256), for which it runs at most 8 times, so 9 units of fuel make the
embedding exact on the whole range of the Go type. -/
def msbCountGo : Nat → Nat → Nat
  | 0, _ => 0
  | fuel + 1, b => if b = 0 then 0 else msbCountGo fuel (b / 2) + 1

/-- Position of the most significant set bit plus one; the inner loop of
`BitlistLen` (`for b := lastByte; b > 0; b >>= 1 { msb++ }`). -/
def msbCount (b : Nat) : Nat :=
  msbCountGo 9 b

/-- `BitlistLen` returns the number of data bits in an SSZ bitlist. -/
def BitlistLen (bl : List Nat) : Nat :=
  if bl.length = 0 then 0
  else
    let lastByte := bl.getD (bl.length - 1) 0
    if lastByte = 0 then 0 else (bl.length - 1) * 8 + msbCount lastByte - 1

/-- `GetBit` returns the value of the bit at index `idx`; out-of-range
reads return `false`. -/
def GetBit (bl : List Nat) (idx : Nat) : Bool :=
  if idx / 8 < bl.length then (bl.getD (idx / 8) 0).testBit (idx % 8) else false

/-- A byte with bit `k` cleared (Go `b &^ (1 << k)` on a `byte`). -/
def clearBitByte (b k : Nat) : Nat :=
  b &&& (255 ^^^ (1 <<< k))

/-- A byte with bit `k` set (Go `b |= 1 << k`). -/
def orBitByte (b k : Nat) : Nat :=
  b ||| (1 <<< k)

/-- `SetBit` sets the bit at index `idx` in place; a no-op out of range. -/
def SetBit (bl : List Nat) (idx : Nat) (v : Bool) : List Nat :=
  if idx / 8 < bl.length then
    bl.set (idx / 8)
      (if v then orBitByte (bl.getD (idx / 8) 0) (idx % 8)
       else clearBitByte (bl.getD (idx / 8) 0) (idx % 8))
  else bl

/-- Growth step of `AppendBit`: `for len(bl) < neededBytes { bl = append(bl, 0) };
bl = bl[:neededBytes]`. -/
def appendBitGrow (neededBytes : Nat) (bl : List Nat) : List Nat :=
  (bl ++ List.replicate (neededBytes - bl.length) 0).take neededBytes

/-- Clear-old-sentinel step of `AppendBit` (`if n > 0 { ... bl[sentinelByte] &^= ... }`). -/
def appendBitClearOld (n : Nat) (bl : List Nat) : List Nat :=
  if 0 < n then
    if n / 8 < bl.length then
      bl.set (n / 8) (clearBitByte (bl.getD (n / 8) 0) (n % 8))
    else bl
  else bl

/-- Data-bit write step of `AppendBit` (set or clear position `n`). -/
def appendBitWrite (n : Nat) (v : Bool) (bl : List Nat) : List Nat :=
  if v then bl.set (n / 8) (orBitByte (bl.getD (n / 8) 0) (n % 8))
  else bl.set (n / 8) (clearBitByte (bl.getD (n / 8) 0) (n % 8))

/-- Sentinel write step of `AppendBit` (`bl[sentinelByte] |= 1 << sentinelBit`
at position `newLen`). -/
def appendBitSentinel (newLen : Nat) (bl : List Nat) : List Nat :=
  bl.set (newLen / 8) (orBitByte (bl.getD (newLen / 8) 0) (newLen % 8))

/-- `AppendBit` adds a new data bit, maintaining the sentinel: grow to the
needed byte count, clear the old sentinel, write the data bit at position
`n`, set the new sentinel at `n+1`. -/
def AppendBit (bl : List Nat) (v : Bool) : List Nat :=
  let n := BitlistLen bl
  appendBitSentinel (n + 1)
    (appendBitWrite n v (appendBitClearOld n (appendBitGrow ((n + 1 + 1 + 7) / 8) bl)))

/-- The bit of a byte list at absolute position `i` (0 when out of range). -/
def bitAt (bl : List Nat) (i : Nat) : Bool :=
  (bl.getD (i / 8) 0).testBit (i % 8)

/-- `bl` is the well-formed bitlist encoding of the bit sequence `bits`:
the byte count is exactly `ceil((n+1)/8)`, every byte is below 256, the
first `n` positions carry the data bits, position `n` carries the
sentinel, and everything above is clear. -/
def IsEnc (bl : List Nat) (bits : List Bool) : Prop :=
  bl.length = (bits.length + 8) / 8 ∧
  (∀ b ∈ bl, b < 256) ∧
  ∀ i, bitAt bl i =
    ((decide (i < bits.length) && bits.getD i false) || decide (i = bits.length))

lemma getBit_eq_bitAt (bl : List Nat) (i : Nat) : GetBit bl i = bitAt bl i := by
  unfold GetBit bitAt
  by_cases h : i / 8 < bl.length
  · simp [h]
  · simp [h, List.getD_eq_getElem?_getD, List.getElem?_eq_none (le_of_not_lt h)]

/-! #### Byte-level lemmas -/

lemma testBit_orBitByte (b k j : Nat) :
    (orBitByte b k).testBit j = (b.testBit j || decide (j = k)) := by
  unfold orBitByte
  rw [Nat.testBit_lor, Nat.shiftLeft_eq, one_mul, Nat.testBit_two_pow]
  by_cases h : j = k
  · simp [h]
  · have h' : k ≠ j := fun hc => h hc.symm
    simp [h, h']

lemma testBit_clearBitByte (b k j : Nat) (hb : b < 256) (hk : k < 8) :
    (clearBitByte b k).testBit j = (b.testBit j && !decide (j = k)) := by
  unfold clearBitByte
  rw [Nat.testBit_land, Nat.testBit_xor]
  by_cases hj : j < 8
  · have h255 : (255 : Nat).testBit j = true := by
      have h8 : (255 : Nat) = 2 ^ 8 - 1 := by norm_num
      rw [h8, Nat.testBit_two_pow_sub_one]; simpa using hj
    rw [h255, Nat.shiftLeft_eq, one_mul, Nat.testBit_two_pow]
    by_cases h : j = k
    · simp [h]
    · have h' : k ≠ j := fun hc => h hc.symm
      simp [h, h']
  · have hbj : b.testBit j = false :=
      Nat.testBit_lt_two_pow
        (lt_of_lt_of_le hb (Nat.pow_le_pow_right (show 0 < 2 by decide) (le_of_not_lt hj)))
    simp [hbj]

lemma orBitByte_lt (b k : Nat) (hb : b < 256) (hk : k < 8) : orBitByte b k < 256 := by
  have h8 : (256 : Nat) = 2 ^ 8 := by norm_num
  have h2 : (1 <<< k) < 2 ^ 8 := by
    rw [Nat.shiftLeft_eq, one_mul]
    exact lt_of_le_of_lt (Nat.pow_le_pow_right (by decide) (by omega)) (by norm_num : (2:Nat) ^ 7 < 2 ^ 8)
  rw [h8] at hb ⊢
  exact Nat.or_lt_two_pow hb h2

lemma clearBitByte_lt (b k : Nat) (hb : b < 256) : clearBitByte b k < 256 :=
  lt_of_le_of_lt Nat.and_le_left hb

/-! #### Pointwise lemmas for `bitAt` -/

lemma bitAt_append_zeros (bl : List Nat) (m i : Nat) :
    bitAt (bl ++ List.replicate m 0) i = bitAt bl i := by
  unfold bitAt
  by_cases h : i / 8 < bl.length
  · rw [List.getD_append _ _ _ _ h]
  · rw [List.getD_eq_getElem?_getD, List.getD_eq_getElem?_getD,
      List.getElem?_append_right (le_of_not_lt h),
      List.getElem?_eq_none (le_of_not_lt h), List.getElem?_replicate]
    by_cases h2 : i / 8 - bl.length < m <;> simp [h2]

lemma bitAt_set (bl : List Nat) (j : Nat) (c : Nat) (i : Nat) (hj : j < bl.length) :
    bitAt (bl.set j c) i = if i / 8 = j then c.testBit (i % 8) else bitAt bl i := by
  unfold bitAt
  by_cases h : i / 8 = j
  · subst h
    rw [List.getD_eq_getElem?_getD, List.getElem?_set_self hj]
    simp
  · rw [List.getD_eq_getElem?_getD, List.getD_eq_getElem?_getD,
      List.getElem?_set_ne (Ne.symm h)]
    simp [h]

lemma getD_mem_of_lt (bl : List Nat) (j : Nat) (h : j < bl.length) :
    bl.getD j 0 ∈ bl := by
  rw [List.getD_eq_getElem?_getD, List.getElem?_eq_getElem h]
  exact List.getElem_mem h

lemma bitAt_orAt (bl : List Nat) (j i : Nat) (hj : j / 8 < bl.length) :
    bitAt (bl.set (j / 8) (orBitByte (bl.getD (j / 8) 0) (j % 8))) i =
      (bitAt bl i || decide (i = j)) := by
  rw [bitAt_set _ _ _ _ hj]
  by_cases h : i / 8 = j / 8
  · rw [if_pos h, testBit_orBitByte]
    have hiff : (i % 8 = j % 8) ↔ (i = j) := by omega
    by_cases h2 : i = j
    · simp [bitAt, h, h2]
    · have : ¬ (i % 8 = j % 8) := fun hc => h2 (hiff.mp hc)
      simp [bitAt, h, h2, this]
  · have : ¬ (i = j) := fun hc => h (by rw [hc])
    simp [h, this]

lemma bitAt_clearAt (bl : List Nat) (j i : Nat) (hj : j / 8 < bl.length)
    (hb : ∀ b ∈ bl, b < 256) :
    bitAt (bl.set (j / 8) (clearBitByte (bl.getD (j / 8) 0) (j % 8))) i =
      (bitAt bl i && !decide (i = j)) := by
  rw [bitAt_set _ _ _ _ hj]
  have hblt : bl.getD (j / 8) 0 < 256 := hb _ (getD_mem_of_lt _ _ hj)
  by_cases h : i / 8 = j / 8
  · rw [if_pos h, testBit_clearBitByte _ _ _ hblt (Nat.mod_lt _ (by decide))]
    have hiff : (i % 8 = j % 8) ↔ (i = j) := by omega
    by_cases h2 : i = j
    · simp [bitAt, h, h2, hiff]
    · have : ¬ (i % 8 = j % 8) := fun hc => h2 (hiff.mp hc)
      simp [bitAt, h, h2, this]
  · have : ¬ (i = j) := fun hc => h (by rw [hc])
    simp [h, this]

lemma set_preserves_lt256 (bl : List Nat) (j c : Nat) (hb : ∀ b ∈ bl, b < 256)
    (hc : c < 256) : ∀ b ∈ bl.set j c, b < 256 := by
  intro b hbmem
  rcases List.mem_or_eq_of_mem_set hbmem with h | h
  · exact hb _ h
  · omega

/-! #### `msbCount` -/

lemma msbCountGo_zero (fuel : Nat) : msbCountGo fuel 0 = 0 := by
  cases fuel <;> simp [msbCountGo]

lemma msbCountGo_eq (k : Nat) : ∀ fuel b : Nat, k < fuel → 2 ^ k ≤ b →
    b < 2 ^ (k + 1) → msbCountGo fuel b = k + 1 := by
  induction k with
  | zero =>
      intro fuel b hf h1 h2
      have hb : b = 1 := by omega
      subst hb
      obtain ⟨f, rfl⟩ : ∃ f, fuel = f + 1 := ⟨fuel - 1, by omega⟩
      simp [msbCountGo, msbCountGo_zero]
  | succ k ih =>
      intro fuel b hf h1 h2
      have hp2 : 0 < 2 ^ (k + 1) := pow_pos (by norm_num) (k + 1)
      have hb0 : b ≠ 0 := by omega
      obtain ⟨f, rfl⟩ : ∃ f, fuel = f + 1 := ⟨fuel - 1, by omega⟩
      have hlow : 2 ^ k ≤ b / 2 := by
        rw [Nat.le_div_iff_mul_le (by decide)]
        calc 2 ^ k * 2 = 2 ^ (k + 1) := (pow_succ 2 k).symm
        _ ≤ b := h1
      have hhigh : b / 2 < 2 ^ (k + 1) := by
        rw [Nat.div_lt_iff_lt_mul (by decide)]
        calc b < 2 ^ (k + 2) := h2
        _ = 2 ^ (k + 1) * 2 := pow_succ 2 (k + 1)
      simp only [msbCountGo, if_neg hb0]
      rw [ih f (b / 2) (by omega) hlow hhigh]

lemma msbCount_eq_of (k b : Nat) (hk : k < 8) (h1 : 2 ^ k ≤ b)
    (h2 : b < 2 ^ (k + 1)) : msbCount b = k + 1 :=
  msbCountGo_eq k 9 b (by omega) h1 h2

/-! #### Encoding invariant: main lemmas -/

lemma isEnc_empty : IsEnc [1] [] := by
  refine ⟨rfl, ?_, ?_⟩
  · intro b hb
    simp at hb
    omega
  · intro i
    unfold bitAt
    by_cases h : i = 0
    · subst h; decide
    · by_cases h8 : i / 8 = 0
      · have hm : i % 8 ≠ 0 := by omega
        have h1 : (1 : Nat).testBit (i % 8) = false := by
          have h0 : (1 : Nat) = 2 ^ 0 := rfl
          rw [h0, Nat.testBit_two_pow]
          simpa using fun hc => hm hc.symm
        simp [h8, h1, h]
      · have hge : ([1] : List Nat).length ≤ i / 8 := by
          simp; omega
        rw [List.getD_eq_getElem?_getD, List.getElem?_eq_none hge]
        simp [h]

lemma bitlistLen_isEnc (bl : List Nat) (bits : List Bool) (hE : IsEnc bl bits) :
    BitlistLen bl = bits.length := by
  obtain ⟨hlen, hb, hp⟩ := hE
  have hlen' : bl.length = bits.length / 8 + 1 := by omega
  have hidx : bl.length - 1 = bits.length / 8 := by omega
  have hsent : (bl.getD (bl.length - 1) 0).testBit (bits.length % 8) = true := by
    have h0 := hp bits.length
    simp at h0
    unfold bitAt at h0
    rw [hidx]
    exact h0
  have hlast256 : bl.getD (bl.length - 1) 0 < 256 :=
    hb _ (getD_mem_of_lt bl (bl.length - 1) (by omega))
  have hhigh : ∀ j, bits.length % 8 < j → (bl.getD (bl.length - 1) 0).testBit j = false := by
    intro j hj
    by_cases hj8 : j < 8
    · have h0 := hp (8 * (bl.length - 1) + j)
      unfold bitAt at h0
      have heq : (8 * (bl.length - 1) + j) / 8 = bl.length - 1 := by omega
      have heq2 : (8 * (bl.length - 1) + j) % 8 = j := by omega
      rw [heq, heq2] at h0
      rw [h0]
      have hgt1 : ¬ (8 * (bl.length - 1) + j < bits.length) := by omega
      have hgt2 : ¬ (8 * (bl.length - 1) + j = bits.length) := by omega
      simp [hgt1, hgt2]
    · have h256 : (256 : Nat) ≤ 2 ^ j := by
        calc (256 : Nat) = 2 ^ 8 := by norm_num
        _ ≤ 2 ^ j := Nat.pow_le_pow_right (by decide) (by omega)
      exact Nat.testBit_lt_two_pow (lt_of_lt_of_le hlast256 h256)
  have hlow : 2 ^ (bits.length % 8) ≤ bl.getD (bl.length - 1) 0 :=
    Nat.testBit_implies_ge hsent
  have hup : bl.getD (bl.length - 1) 0 < 2 ^ (bits.length % 8 + 1) := by
    have hpow : 0 < 2 ^ (bits.length % 8 + 1) := pow_pos (by norm_num) _
    have hmod : bl.getD (bl.length - 1) 0 =
        bl.getD (bl.length - 1) 0 % 2 ^ (bits.length % 8 + 1) := by
      apply Nat.eq_of_testBit_eq
      intro i
      rw [Nat.testBit_mod_two_pow]
      by_cases h : i < bits.length % 8 + 1
      · simp [h]
      · have hh := hhigh i (by omega)
        simp only [List.getD_eq_getElem?_getD] at hh
        simp [h, hh]
    rw [hmod]
    exact Nat.mod_lt _ hpow
  have hmsb : msbCount (bl.getD (bl.length - 1) 0) = bits.length % 8 + 1 :=
    msbCount_eq_of _ _ (by omega) hlow hup
  have hlast0 : bl.getD (bl.length - 1) 0 ≠ 0 := by
    intro hc; rw [hc] at hsent; simp [Nat.zero_testBit] at hsent
  rw [BitlistLen, if_neg (by omega)]
  simp only [if_neg hlast0]
  rw [hmsb, hidx]
  omega

lemma getBit_isEnc (bl : List Nat) (bits : List Bool) (hE : IsEnc bl bits)
    (i : Nat) (hi : i < bits.length) : GetBit bl i = bits.getD i false := by
  rw [getBit_eq_bitAt, hE.2.2 i]
  simp [hi, Nat.ne_of_lt hi]

/-! #### Step lemmas for `AppendBit` -/

lemma appendBitGrow_spec (neededBytes : Nat) (bl : List Nat)
    (hle : bl.length ≤ neededBytes) (hb : ∀ b ∈ bl, b < 256) :
    (appendBitGrow neededBytes bl).length = neededBytes ∧
    (∀ b ∈ appendBitGrow neededBytes bl, b < 256) ∧
    ∀ i, bitAt (appendBitGrow neededBytes bl) i = bitAt bl i := by
  have hlen : (bl ++ List.replicate (neededBytes - bl.length) 0).length = neededBytes := by
    simp [List.length_append, List.length_replicate]; omega
  have htake : appendBitGrow neededBytes bl = bl ++ List.replicate (neededBytes - bl.length) 0 := by
    unfold appendBitGrow
    exact List.take_of_length_le (le_of_eq hlen)
  refine ⟨by rw [htake, hlen], ?_, ?_⟩
  · intro b hbm
    rw [htake] at hbm
    rcases List.mem_append.mp hbm with h | h
    · exact hb _ h
    · have : b = 0 := List.eq_of_mem_replicate h
      omega
  · intro i
    rw [htake, bitAt_append_zeros]

lemma appendBitClearOld_length (n : Nat) (bl : List Nat) :
    (appendBitClearOld n bl).length = bl.length := by
  unfold appendBitClearOld
  split <;> [skip; rfl]
  split <;> simp [List.length_set]

lemma appendBitClearOld_lt256 (n : Nat) (bl : List Nat) (hb : ∀ b ∈ bl, b < 256) :
    ∀ b ∈ appendBitClearOld n bl, b < 256 := by
  unfold appendBitClearOld
  split
  · split
    · exact set_preserves_lt256 _ _ _ hb
        (clearBitByte_lt _ _ (hb _ (getD_mem_of_lt _ _ (by assumption))))
    · exact hb
  · exact hb

lemma appendBitClearOld_bitAt_ne (n : Nat) (bl : List Nat) (hb : ∀ b ∈ bl, b < 256)
    (i : Nat) (hi : i ≠ n) :
    bitAt (appendBitClearOld n bl) i = bitAt bl i := by
  unfold appendBitClearOld
  split
  · split
    · rw [bitAt_clearAt _ _ _ (by assumption) hb]
      simp [hi]
    · rfl
  · rfl

lemma appendBitWrite_length (n : Nat) (v : Bool) (bl : List Nat) :
    (appendBitWrite n v bl).length = bl.length := by
  unfold appendBitWrite
  split <;> simp [List.length_set]

lemma appendBitWrite_lt256 (n : Nat) (v : Bool) (bl : List Nat)
    (hn : n / 8 < bl.length) (hb : ∀ b ∈ bl, b < 256) :
    ∀ b ∈ appendBitWrite n v bl, b < 256 := by
  unfold appendBitWrite
  split
  · exact set_preserves_lt256 _ _ _ hb
      (orBitByte_lt _ _ (hb _ (getD_mem_of_lt _ _ hn)) (Nat.mod_lt _ (by decide)))
  · exact set_preserves_lt256 _ _ _ hb
      (clearBitByte_lt _ _ (hb _ (getD_mem_of_lt _ _ hn)))

lemma appendBitWrite_bitAt_self (n : Nat) (v : Bool) (bl : List Nat)
    (hn : n / 8 < bl.length) (hb : ∀ b ∈ bl, b < 256) :
    bitAt (appendBitWrite n v bl) n = v := by
  unfold appendBitWrite
  cases v
  · rw [if_neg (by simp), bitAt_clearAt _ _ _ hn hb]
    simp
  · rw [if_pos rfl, bitAt_orAt _ _ _ hn]
    simp

lemma appendBitWrite_bitAt_ne (n : Nat) (v : Bool) (bl : List Nat)
    (hn : n / 8 < bl.length) (hb : ∀ b ∈ bl, b < 256) (i : Nat) (hi : i ≠ n) :
    bitAt (appendBitWrite n v bl) i = bitAt bl i := by
  unfold appendBitWrite
  split
  · rw [bitAt_orAt _ _ _ hn]; simp [hi]
  · rw [bitAt_clearAt _ _ _ hn hb]; simp [hi]

lemma appendBitSentinel_length (m : Nat) (bl : List Nat) :
    (appendBitSentinel m bl).length = bl.length := by
  unfold appendBitSentinel
  simp [List.length_set]

lemma appendBitSentinel_lt256 (m : Nat) (bl : List Nat)
    (hm : m / 8 < bl.length) (hb : ∀ b ∈ bl, b < 256) :
    ∀ b ∈ appendBitSentinel m bl, b < 256 := by
  unfold appendBitSentinel
  exact set_preserves_lt256 _ _ _ hb
    (orBitByte_lt _ _ (hb _ (getD_mem_of_lt _ _ hm)) (Nat.mod_lt _ (by decide)))

lemma appendBitSentinel_bitAt_self (m : Nat) (bl : List Nat)
    (hm : m / 8 < bl.length) :
    bitAt (appendBitSentinel m bl) m = true := by
  unfold appendBitSentinel
  rw [bitAt_orAt _ _ _ hm]
  simp

lemma appendBitSentinel_bitAt_ne (m : Nat) (bl : List Nat)
    (hm : m / 8 < bl.length) (i : Nat) (hi : i ≠ m) :
    bitAt (appendBitSentinel m bl) i = bitAt bl i := by
  unfold appendBitSentinel
  rw [bitAt_orAt _ _ _ hm]
  simp [hi]

/-! #### The encoding invariant is preserved by `AppendBit` and `SetBit` -/

lemma appendBit_isEnc (bl : List Nat) (bits : List Bool) (v : Bool)
    (hE : IsEnc bl bits) : IsEnc (AppendBit bl v) (bits ++ [v]) := by
  have hn : BitlistLen bl = bits.length := bitlistLen_isEnc bl bits hE
  obtain ⟨hlen, hb, hp⟩ := hE
  have hAB : AppendBit bl v =
      appendBitSentinel (bits.length + 1)
        (appendBitWrite bits.length v
          (appendBitClearOld bits.length
            (appendBitGrow ((bits.length + 1 + 1 + 7) / 8) bl))) := by
    simp only [AppendBit, hn]
  have hle : bl.length ≤ (bits.length + 1 + 1 + 7) / 8 := by omega
  obtain ⟨hGlen, hGb, hGp⟩ := appendBitGrow_spec _ bl hle hb
  have hClen := appendBitClearOld_length bits.length
    (appendBitGrow ((bits.length + 1 + 1 + 7) / 8) bl)
  have hCb := appendBitClearOld_lt256 bits.length
    (appendBitGrow ((bits.length + 1 + 1 + 7) / 8) bl) hGb
  have hd8 : bits.length / 8 <
      (appendBitClearOld bits.length
        (appendBitGrow ((bits.length + 1 + 1 + 7) / 8) bl)).length := by
    rw [hClen, hGlen]; omega
  have hWlen := appendBitWrite_length bits.length v
    (appendBitClearOld bits.length (appendBitGrow ((bits.length + 1 + 1 + 7) / 8) bl))
  have hWb := appendBitWrite_lt256 bits.length v _ hd8 hCb
  have hs8 : (bits.length + 1) / 8 <
      (appendBitWrite bits.length v
        (appendBitClearOld bits.length
          (appendBitGrow ((bits.length + 1 + 1 + 7) / 8) bl))).length := by
    rw [hWlen, hClen, hGlen]; omega
  refine hAB ▸ ⟨?_, ?_, ?_⟩
  · rw [appendBitSentinel_length, hWlen, hClen, hGlen]
    simp [List.length_append]
    omega
  · exact appendBitSentinel_lt256 _ _ hs8 hWb
  · intro i
    by_cases h1 : i = bits.length + 1
    · subst h1
      rw [appendBitSentinel_bitAt_self _ _ hs8]
      simp [List.length_append]
    · rw [appendBitSentinel_bitAt_ne _ _ hs8 _ h1]
      by_cases h2 : i = bits.length
      · subst h2
        rw [appendBitWrite_bitAt_self _ _ _ hd8 hCb]
        have hcat : (bits ++ [v]).getD bits.length false = v := by
          rw [List.getD_eq_getElem?_getD, List.getElem?_concat_length]
          rfl
        simp [List.length_append, hcat, h1]
      · rw [appendBitWrite_bitAt_ne _ _ _ hd8 hCb _ h2,
          appendBitClearOld_bitAt_ne _ _ hGb _ h2, hGp, hp i]
        by_cases h3 : i < bits.length
        · have hgetD : (bits ++ [v]).getD i false = bits.getD i false := by
            rw [List.getD_append _ _ _ _ h3]
          have h5 : i < bits.length + 1 := by omega
          have h6 : (bits ++ [v])[i]? = bits[i]? := by
            rw [List.getElem?_append]
            simp [h3]
          simp [List.length_append, h3, h5, h2, h1, h6]
        · have h4 : ¬ (i < bits.length + 1) := by omega
          simp [List.length_append, h3, h2, h1, h4]

lemma setBit_isEnc (bl : List Nat) (bits : List Bool) (idx : Nat) (v : Bool)
    (hE : IsEnc bl bits) (hidx : idx < bits.length) :
    IsEnc (SetBit bl idx v) (bits.set idx v) := by
  obtain ⟨hlen, hb, hp⟩ := hE
  have h8 : idx / 8 < bl.length := by omega
  have hSB : SetBit bl idx v = appendBitWrite idx v bl := by
    unfold SetBit appendBitWrite
    rw [if_pos h8]
    split <;> rfl
  rw [hSB]
  refine ⟨?_, appendBitWrite_lt256 _ _ _ h8 hb, ?_⟩
  · rw [appendBitWrite_length]
    simpa using hlen
  · intro i
    by_cases h1 : i = idx
    · subst h1
      rw [appendBitWrite_bitAt_self _ _ _ h8 hb]
      have hset : (bits.set i v).getD i false = v := by
        rw [List.getD_eq_getElem?_getD, List.getElem?_set_self (by simpa using hidx)]
        rfl
      simp [hidx, hset, Nat.ne_of_lt hidx]
    · rw [appendBitWrite_bitAt_ne _ _ _ h8 hb _ h1, hp i]
      have hset : (bits.set idx v)[i]? = bits[i]? := List.getElem?_set_ne (Ne.symm h1)
      simp [hset]

lemma bitlistLen_appendBit (bl : List Nat) (bits : List Bool) (v : Bool)
    (hE : IsEnc bl bits) : BitlistLen (AppendBit bl v) = bits.length + 1 := by
  have := bitlistLen_isEnc _ _ (appendBit_isEnc bl bits v hE)
  simpa using this

lemma isEnc_foldl_appendBit (vs : List Bool) : IsEnc (vs.foldl AppendBit [1]) vs := by
  induction vs using List.reverseRecOn with
  | nil => exact isEnc_empty
  | append_singleton vs v ih =>
      rw [List.foldl_append]
      exact appendBit_isEnc _ _ _ ih

/-- C7: appending the bits `v_1 .. v_n` with `AppendBit`, starting from the
empty bitlist `[0x01]`, yields a bitlist whose `BitlistLen` is `n` and
whose `GetBit i` is `v_(i+1)` for every `0 ≤ i < n`. -/
theorem c7_bitlist_roundtrip (vs : List Bool) :
    BitlistLen (vs.foldl AppendBit [1]) = vs.length ∧
    ∀ i, i < vs.length → GetBit (vs.foldl AppendBit [1]) i = vs.getD i false := by
  have hE := isEnc_foldl_appendBit vs
  exact ⟨bitlistLen_isEnc _ _ hE, fun i hi => getBit_isEnc _ _ hE i hi⟩

/-- C7 witness: the round-trip property evaluated on the concrete bit
sequence `[true, false, true]` at index 1. -/
theorem c7_bitlist_roundtrip_witness :
    BitlistLen ([true, false, true].foldl AppendBit [1]) = 3 ∧
    GetBit ([true, false, true].foldl AppendBit [1]) 1 = false := by
  refine ⟨(c7_bitlist_roundtrip [true, false, true]).1, ?_⟩
  have h := (c7_bitlist_roundtrip [true, false, true]).2 1 (by decide)
  simpa using h

/-! ### Data model (package `types`)

Roots are 32-byte hashes; they are embedded as `Nat` (big-endian value),
so `types.ZeroHash` is `0` and the lexicographic byte order used by
`bytes.Compare` / `hashGreater` is the numeric order. -/

/-- `types.ZeroHash`. -/
def ZeroHash : Nat := 0

/-- `types.SlotsPerEpoch`. -/
def SlotsPerEpoch : Nat := 32

/-- `types.IntervalsPerSlot`. -/
def IntervalsPerSlot : Nat := 4

/-- `types.SecondsPerSlot`. -/
def SecondsPerSlot : Nat := 4

/-- `types.Checkpoint`. -/
structure Checkpoint where
  root : Nat
  slot : Nat
deriving DecidableEq, Repr

/-- `types.AttestationData`. -/
structure AttestationData where
  slot : Nat
  head : Checkpoint
  target : Checkpoint
  source : Checkpoint
deriving DecidableEq, Repr

/-- `types.Attestation`: a validator id together with attestation data. -/
structure Attestation where
  validatorId : Nat
  data : AttestationData
deriving DecidableEq, Repr

/-- `types.Validator` (the 52-byte pubkey is embedded as a `Nat`). -/
structure Validator where
  pubkey : Nat
  index : Nat
deriving DecidableEq, Repr

/-- `types.BlockHeader`. -/
structure BlockHeader where
  slot : Nat
  proposerIndex : Nat
  parentRoot : Nat
  stateRoot : Nat
  bodyRoot : Nat
deriving DecidableEq, Repr

/-- `types.BlockBody`. -/
structure BlockBody where
  attestations : List Attestation
deriving DecidableEq, Repr

/-- `types.Block`. -/
structure Block where
  slot : Nat
  proposerIndex : Nat
  parentRoot : Nat
  stateRoot : Nat
  body : BlockBody
deriving DecidableEq, Repr

/-- `types.BlockWithAttestation`. -/
structure BlockWithAttestation where
  block : Block
  proposerAttestation : Option Attestation
deriving DecidableEq, Repr

/-- `types.SignedBlockWithAttestation` (each 3112-byte signature is
embedded as a `Nat`). -/
structure SignedBlockWithAttestation where
  message : BlockWithAttestation
  signature : List Nat
deriving DecidableEq, Repr

/-- `types.Config`. -/
structure Config where
  genesisTime : Nat
deriving DecidableEq, Repr

/-- `types.State`.  Bitlists (`justified_slots`,
`justifications_validators`) are byte lists as in §4.A. -/
structure State where
  config : Config
  slot : Nat
  latestBlockHeader : BlockHeader
  latestJustified : Checkpoint
  latestFinalized : Checkpoint
  historicalBlockHashes : List Nat
  justifiedSlots : List Nat
  validators : List Validator
  justificationsRoots : List Nat
  justificationsValidators : List Nat
deriving DecidableEq, Repr

/-- External collaborators: the SSZ hash-tree-root functions used by the
engine.  The source treats them as an opaque library; they are injected
here as explicit parameters. -/
structure Hasher where
  hashState : State → Nat
  hashHeader : BlockHeader → Nat
  hashBody : BlockBody → Nat
  hashBlock : Block → Nat
  hashAttestation : Attestation → Nat
  hashAttestationData : AttestationData → Nat

/-- Modelled from the spec: `types.IsJustifiableAfter` is referenced by
`ProcessAttestations` and the vote-target walk and unit-tested in the
repository, but its defining file is not under `src/`.  Per §4.B of the
spec: `delta = slot - finalized_slot`; justifiable iff `delta ≤ 5`, or
`delta` is a perfect square, or `delta` is pronic.  The Go function
panics when `slot < finalized_slot`; the embedding returns `false`
there. -/
def IsJustifiableAfter (slot finalizedSlot : Nat) : Bool :=
  if slot < finalizedSlot then false
  else
    let delta := slot - finalizedSlot
    decide (delta ≤ 5) ||
    (List.range (delta + 1)).any (fun k => k * k = delta) ||
    (List.range (delta + 1)).any (fun k => k * (k + 1) = delta)

/-! ### State transition (package `chain/statetransition`) -/

namespace Statetransition

/-- Modelled from the spec: `statetransition.IsProposer` is called by
`ProcessBlockHeader` and `ProduceBlock` and unit-tested in the
repository, but its defining file is not under `src/`.  Per §4.B the
proposer is round-robin: `proposer_index == slot mod num_validators`.
The Go function panics when `num_validators` is zero; the embedding
returns `false` there. -/
def IsProposer (validatorIndex slot numValidators : Nat) : Bool :=
  if numValidators = 0 then false
  else decide (validatorIndex = slot % numValidators)

/-- `CloneBitlist` (byte-wise copy; a value copy in the embedding). -/
def CloneBitlist (src : List Nat) : List Nat := src

/-- State-transition error kinds (§7 of the spec). -/
inductive StError where
  | invalidSlotOrder
  | slotMismatch
  | headerSlotOrder
  | wrongProposer
  | wrongParentRoot
  | invalidStateRoot
deriving DecidableEq, Repr

/-- `ProcessSlot`: cache the state root into the latest block header when
that header's `state_root` is zero. -/
def ProcessSlot (H : Hasher) (state : State) : State :=
  if state.latestBlockHeader.stateRoot = ZeroHash then
    let stateRoot := H.hashState state
    { state with latestBlockHeader := { state.latestBlockHeader with stateRoot := stateRoot } }
  else state

/-- The slot-advancement loop of `ProcessSlots`
(`for s.Slot < targetSlot { s = ProcessSlot(s); ...; s.Slot++ }`); the
fuel equals the number of remaining slots, which matches the Go loop
count exactly because each iteration increases `slot` by one. -/
def processSlotsGo (H : Hasher) (targetSlot : Nat) : Nat → State → State
  | 0, s => s
  | fuel + 1, s =>
      if s.slot < targetSlot then
        let s1 := ProcessSlot H s
        processSlotsGo H targetSlot fuel { s1 with slot := s1.slot + 1 }
      else s

/-- `ProcessSlots`: advance through empty slots up to `targetSlot`; fails
with `InvalidSlotOrder` when `state.slot ≥ targetSlot`. -/
def ProcessSlots (H : Hasher) (state : State) (targetSlot : Nat) :
    Except StError State :=
  if state.slot ≥ targetSlot then .error .invalidSlotOrder
  else .ok (processSlotsGo H targetSlot (targetSlot - state.slot) state)

/-- Gap-filling loop of `ProcessBlockHeader`: append `ZeroRoot` and a
`false` justified bit for each empty slot. -/
def fillEmptySlots : Nat → State → State
  | 0, s => s
  | k + 1, s =>
      fillEmptySlots k
        { s with
          historicalBlockHashes := s.historicalBlockHashes ++ [ZeroHash],
          justifiedSlots := AppendBit s.justifiedSlots false }

/-- `ProcessBlockHeader`: validate the header and update header-linked
state.  The unexported Go helpers `appendBit`/`cloneBitlist` are the
§4.A bitlist operations (`AppendBit`/`CloneBitlist`). -/
def ProcessBlockHeader (H : Hasher) (state : State) (block : Block) :
    Except StError State :=
  if block.slot ≠ state.slot then .error .slotMismatch
  else if block.slot ≤ state.latestBlockHeader.slot then .error .headerSlotOrder
  else if ¬ IsProposer block.proposerIndex state.slot state.validators.length then
    .error .wrongProposer
  else if block.parentRoot ≠ H.hashHeader state.latestBlockHeader then
    .error .wrongParentRoot
  else
    let parentRoot := block.parentRoot
    let s1 :=
      if state.latestBlockHeader.slot = 0 then
        { state with
          latestJustified := { root := parentRoot, slot := state.latestJustified.slot },
          latestFinalized := { root := parentRoot, slot := state.latestFinalized.slot } }
      else state
    let s2 :=
      { s1 with
        historicalBlockHashes := s1.historicalBlockHashes ++ [parentRoot],
        justifiedSlots := AppendBit s1.justifiedSlots (state.latestBlockHeader.slot = 0) }
    let s3 := fillEmptySlots (block.slot - state.latestBlockHeader.slot - 1) s2
    .ok { s3 with
          latestBlockHeader :=
            { slot := block.slot
              proposerIndex := block.proposerIndex
              parentRoot := block.parentRoot
              bodyRoot := H.hashBody block.body
              stateRoot := ZeroHash } }

/-! #### Association-list embedding of Go maps -/

/-- Lookup in a Go map embedded as an association list with unique keys. -/
def lookupAssoc {α : Type} : List (Nat × α) → Nat → Option α
  | [], _ => none
  | p :: t, k => if p.1 = k then some p.2 else lookupAssoc t k

/-- Go map insertion (`m[k] = v`): overwrite the existing entry or append. -/
def setAssoc {α : Type} : List (Nat × α) → Nat → α → List (Nat × α)
  | [], k, v => [(k, v)]
  | p :: t, k, v => if p.1 = k then (k, v) :: t else p :: setAssoc t k v

/-- Go map deletion (`delete(m, k)`). -/
def eraseAssoc {α : Type} : List (Nat × α) → Nat → List (Nat × α)
  | [], _ => []
  | p :: t, k => if p.1 = k then eraseAssoc t k else p :: eraseAssoc t k

lemma lookupAssoc_setAssoc_self {α : Type} (l : List (Nat × α)) (k : Nat) (v : α) :
    lookupAssoc (setAssoc l k v) k = some v := by
  induction l with
  | nil => simp [setAssoc, lookupAssoc]
  | cons p t ih =>
      by_cases h : p.1 = k
      · simp [setAssoc, lookupAssoc, h]
      · simp [setAssoc, lookupAssoc, h, ih]

lemma lookupAssoc_setAssoc_ne {α : Type} (l : List (Nat × α)) (k k' : Nat) (v : α)
    (h : k' ≠ k) : lookupAssoc (setAssoc l k v) k' = lookupAssoc l k' := by
  have h2 : ¬ (k = k') := fun hc => h hc.symm
  induction l with
  | nil => simp [setAssoc, lookupAssoc, h2]
  | cons p t ih =>
      obtain ⟨pk, pv⟩ := p
      by_cases hp : pk = k
      · subst hp
        simp [setAssoc, lookupAssoc, h2]
      · simp [setAssoc, lookupAssoc, hp, ih]

lemma lookupAssoc_eraseAssoc_self {α : Type} (l : List (Nat × α)) (k : Nat) :
    lookupAssoc (eraseAssoc l k) k = none := by
  induction l with
  | nil => simp [eraseAssoc, lookupAssoc]
  | cons p t ih =>
      by_cases h : p.1 = k
      · simp [eraseAssoc, h, ih]
      · simp [eraseAssoc, lookupAssoc, h, ih]

/-- Deserialization of `justifications_roots`/`justifications_validators`
into the working map `J` at the top of `ProcessAttestations`. -/
def deserializeJustifications (numValidators : Nat) (roots : List Nat)
    (jv : List Nat) : List (Nat × List Bool) :=
  roots.enum.foldl
    (fun acc p =>
      setAssoc acc p.2
        ((List.range numValidators).map (fun v => GetBit jv (p.1 * numValidators + v))))
    []

/-- The finalization gap scan of `ProcessAttestations`
(`for s := srcSlot+1; s < tgtSlot; s++ { if IsJustifiableAfter(...) }`). -/
def hasJustifiableGap (srcSlot tgtSlot fs0 : Nat) : Bool :=
  (List.range' (srcSlot + 1) (tgtSlot - srcSlot - 1)).any
    (fun s => IsJustifiableAfter s fs0)

/-- Extension loop of the justify step
(`for BitlistLen(justifiedSlots) <= tgtSlot { AppendBit(..., false) }`),
with explicit fuel; on a well-formed bitlist each append increases the
length by exactly one, so `tgtSlot + 1` rounds of fuel cover every run
of the Go loop. -/
def justifyExtendGo (tgtSlot : Nat) : Nat → List Nat → List Nat
  | 0, js => js
  | fuel + 1, js =>
      if BitlistLen js ≤ tgtSlot then justifyExtendGo tgtSlot fuel (AppendBit js false)
      else js

/-- Justified-slots extension up to `tgtSlot`. -/
def justifyExtend (tgtSlot : Nat) (js : List Nat) : List Nat :=
  justifyExtendGo tgtSlot (tgtSlot + 1) js

/-- The four local variables mutated by the attestation loop of
`ProcessAttestations`. -/
structure JState where
  justifications : List (Nat × List Bool)
  justifiedSlots : List Nat
  latestJustified : Checkpoint
  latestFinalized : Checkpoint
deriving DecidableEq, Repr

/-- One iteration of the attestation loop of `ProcessAttestations`
(3SF-mini): skip checks, vote recording, supermajority justification and
finalization. -/
def processAttStep (numValidators : Nat) (hbh : List Nat) (fs0 : Nat)
    (acc : JState) (att : Attestation) : JState :=
  let source := att.data.source
  let target := att.data.target
  let srcSlot := source.slot
  let tgtSlot := target.slot
  if tgtSlot ≤ srcSlot then acc
  else if srcSlot ≥ BitlistLen acc.justifiedSlots ∨ ¬ GetBit acc.justifiedSlots srcSlot then acc
  else if tgtSlot < BitlistLen acc.justifiedSlots ∧ GetBit acc.justifiedSlots tgtSlot then acc
  else if srcSlot ≥ hbh.length ∨ hbh.getD srcSlot 0 ≠ source.root then acc
  else if tgtSlot ≥ hbh.length ∨ hbh.getD tgtSlot 0 ≠ target.root then acc
  else if ¬ IsJustifiableAfter tgtSlot fs0 then acc
  else if att.validatorId ≥ numValidators then acc
  else
    let votes0 :=
      match lookupAssoc acc.justifications target.root with
      | some vs => vs
      | none => List.replicate numValidators false
    if votes0.getD att.validatorId false then acc
    else
      let votes := votes0.set att.validatorId true
      let count := votes.count true
      let j1 := setAssoc acc.justifications target.root votes
      if 3 * count < 2 * numValidators then { acc with justifications := j1 }
      else
        { justifications := eraseAssoc j1 target.root
          justifiedSlots := SetBit (justifyExtend tgtSlot acc.justifiedSlots) tgtSlot true
          latestJustified := { root := target.root, slot := tgtSlot }
          latestFinalized :=
            if hasJustifiableGap srcSlot tgtSlot fs0 then acc.latestFinalized
            else { root := source.root, slot := srcSlot } }

/-- `sortedJustificationRoots`: the map keys in lexicographic order. -/
def sortedJustificationRoots (j : List (Nat × List Bool)) : List Nat :=
  (j.map Prod.fst).insertionSort (· ≤ ·)

/-- `flattenVotes`: pack the per-root vote slices into one bitlist with a
sentinel at `len(keys) * num_validators`. -/
def flattenVotes (sortedRoots : List Nat) (j : List (Nat × List Bool))
    (numValidators : Nat) : List Nat :=
  let totalBits := sortedRoots.length * numValidators
  if totalBits = 0 then [1]
  else
    let numBytes := (totalBits + 1 + 7) / 8
    let flatBits :=
      sortedRoots.flatMap (fun r => (lookupAssoc j r).getD (List.replicate numValidators false))
    let bl := flatBits.enum.foldl
      (fun bl p =>
        if p.2 then bl.set (p.1 / 8) (orBitByte (bl.getD (p.1 / 8) 0) (p.1 % 8)) else bl)
      (List.replicate numBytes 0)
    bl.set (totalBits / 8) (orBitByte (bl.getD (totalBits / 8) 0) (totalBits % 8))

/-- `ProcessAttestations` (3SF-mini justification/finalization). -/
def ProcessAttestations (state : State) (attestations : List Attestation) : State :=
  let numValidators := state.validators.length
  let init : JState :=
    { justifications :=
        deserializeJustifications numValidators state.justificationsRoots
          state.justificationsValidators
      justifiedSlots := CloneBitlist state.justifiedSlots
      latestJustified := { root := state.latestJustified.root, slot := state.latestJustified.slot }
      latestFinalized := { root := state.latestFinalized.root, slot := state.latestFinalized.slot } }
  let final := attestations.foldl
    (processAttStep numValidators state.historicalBlockHashes state.latestFinalized.slot) init
  let sortedRoots := sortedJustificationRoots final.justifications
  { state with
    justifiedSlots := final.justifiedSlots
    latestJustified := final.latestJustified
    latestFinalized := final.latestFinalized
    justificationsRoots := sortedRoots
    justificationsValidators := flattenVotes sortedRoots final.justifications numValidators }

/-- `ProcessBlock` (state transition): header processing then attestation
processing. -/
def ProcessBlock (H : Hasher) (state : State) (block : Block) :
    Except StError State :=
  match ProcessBlockHeader H state block with
  | .error e => .error e
  | .ok s => .ok (ProcessAttestations s block.body.attestations)

/-- `StateTransition`: `ProcessSlots`, `ProcessBlock`, then the
state-root check. -/
def StateTransition (H : Hasher) (state : State) (block : Block) :
    Except StError State :=
  match ProcessSlots H state block.slot with
  | .error e => .error e
  | .ok s =>
      match ProcessBlock H s block with
      | .error e => .error e
      | .ok s2 =>
          if block.stateRoot ≠ H.hashState s2 then .error .invalidStateRoot
          else .ok s2

/-- `GenerateGenesis`: the genesis state. -/
def GenerateGenesis (H : Hasher) (genesisTime : Nat)
    (validators : List Validator) : State :=
  { config := { genesisTime := genesisTime }
    slot := 0
    latestBlockHeader :=
      { slot := 0, proposerIndex := 0, parentRoot := ZeroHash,
        stateRoot := ZeroHash, bodyRoot := H.hashBody { attestations := [] } }
    latestJustified := { root := ZeroHash, slot := 0 }
    latestFinalized := { root := ZeroHash, slot := 0 }
    historicalBlockHashes := []
    justifiedSlots := [1]
    validators := validators
    justificationsRoots := []
    justificationsValidators := [1] }

end Statetransition

/-! ### Claims C10 and C4: `ProcessAttestations` -/

/-- C10: `process_attestations` is total (its embedding returns a `State`,
never an error) and only ever changes `justified_slots`,
`latest_justified`, `latest_finalized`, `justifications_roots` and
`justifications_validators`: the slot, latest block header, historical
block hashes, validator registry and config of its result are those of
the input state. -/
theorem c10_process_attestations_frame (st : State) (atts : List Attestation) :
    (Statetransition.ProcessAttestations st atts).slot = st.slot ∧
    (Statetransition.ProcessAttestations st atts).latestBlockHeader = st.latestBlockHeader ∧
    (Statetransition.ProcessAttestations st atts).historicalBlockHashes = st.historicalBlockHashes ∧
    (Statetransition.ProcessAttestations st atts).validators = st.validators ∧
    (Statetransition.ProcessAttestations st atts).config = st.config :=
  ⟨rfl, rfl, rfl, rfl, rfl⟩

lemma hasJustifiableGap_iff (src tgt fs0 : Nat) :
    Statetransition.hasJustifiableGap src tgt fs0 = true ↔
      ∃ s, src < s ∧ s < tgt ∧ IsJustifiableAfter s fs0 = true := by
  unfold Statetransition.hasJustifiableGap
  rw [List.any_eq_true]
  constructor
  · rintro ⟨x, hx, hp⟩
    rw [List.mem_range'_1] at hx
    exact ⟨x, by omega, by omega, hp⟩
  · rintro ⟨s, h1, h2, hp⟩
    refine ⟨s, ?_, hp⟩
    rw [List.mem_range'_1]
    omega

/-- C4: one iteration of the attestation loop in `process_attestations`,
for an attestation that passes every skip check and whose validator's
vote for the target is not yet recorded: the target is justified (latest
justified set to the target checkpoint, `justified_slots` extended and
the target-slot bit set, the target's entry deleted from the working
dictionary) exactly when `3 * count ≥ 2 * num_validators` after
recording the vote, and the source is finalized exactly when the target
was justified and no slot strictly between source and target is
justifiable after the finalized slot frozen at entry. -/
theorem c4_justify_finalize_conditions
    (numValidators : Nat) (hbh : List Nat) (fs0 : Nat)
    (acc : Statetransition.JState) (att : Attestation) (votes : List Bool)
    (h1 : att.data.source.slot < att.data.target.slot)
    (h2 : att.data.source.slot < BitlistLen acc.justifiedSlots)
    (h3 : GetBit acc.justifiedSlots att.data.source.slot = true)
    (h4 : ¬ (att.data.target.slot < BitlistLen acc.justifiedSlots ∧
             GetBit acc.justifiedSlots att.data.target.slot))
    (h5 : att.data.source.slot < hbh.length)
    (h6 : hbh.getD att.data.source.slot 0 = att.data.source.root)
    (h7 : att.data.target.slot < hbh.length)
    (h8 : hbh.getD att.data.target.slot 0 = att.data.target.root)
    (h9 : IsJustifiableAfter att.data.target.slot fs0 = true)
    (h10 : att.validatorId < numValidators)
    (h11 : (match Statetransition.lookupAssoc acc.justifications att.data.target.root with
            | some vs => vs
            | none => List.replicate numValidators false).getD att.validatorId false = false)
    (hv : votes = (match Statetransition.lookupAssoc acc.justifications att.data.target.root with
                   | some vs => vs
                   | none => List.replicate numValidators false).set att.validatorId true) :
    (Statetransition.processAttStep numValidators hbh fs0 acc att).latestJustified =
      (if 2 * numValidators ≤ 3 * votes.count true
       then { root := att.data.target.root, slot := att.data.target.slot }
       else acc.latestJustified) ∧
    (Statetransition.processAttStep numValidators hbh fs0 acc att).justifiedSlots =
      (if 2 * numValidators ≤ 3 * votes.count true
       then SetBit (Statetransition.justifyExtend att.data.target.slot acc.justifiedSlots)
              att.data.target.slot true
       else acc.justifiedSlots) ∧
    Statetransition.lookupAssoc
        (Statetransition.processAttStep numValidators hbh fs0 acc att).justifications
        att.data.target.root =
      (if 2 * numValidators ≤ 3 * votes.count true then none else some votes) ∧
    ((2 * numValidators ≤ 3 * votes.count true ∧
        ¬ ∃ s, att.data.source.slot < s ∧ s < att.data.target.slot ∧
          IsJustifiableAfter s fs0 = true) →
      (Statetransition.processAttStep numValidators hbh fs0 acc att).latestFinalized =
        { root := att.data.source.root, slot := att.data.source.slot }) ∧
    (¬ (2 * numValidators ≤ 3 * votes.count true ∧
        ¬ ∃ s, att.data.source.slot < s ∧ s < att.data.target.slot ∧
          IsJustifiableAfter s fs0 = true) →
      (Statetransition.processAttStep numValidators hbh fs0 acc att).latestFinalized =
        acc.latestFinalized) := by
  subst hv
  unfold Statetransition.processAttStep
  rw [if_neg (by omega)]
  rw [if_neg (by push_neg; exact ⟨by omega, by simp [h3]⟩)]
  rw [if_neg h4]
  rw [if_neg (by push_neg; exact ⟨by omega, h6⟩)]
  rw [if_neg (by push_neg; exact ⟨by omega, h8⟩)]
  rw [if_neg (by simp [h9])]
  rw [if_neg (by omega)]
  simp only [h11, Bool.false_eq_true, if_false]
  by_cases hth : 3 * ((match Statetransition.lookupAssoc acc.justifications att.data.target.root with
      | some vs => vs
      | none => List.replicate numValidators false).set att.validatorId true).count true <
      2 * numValidators
  · rw [if_pos hth]
    have hgt := not_le.mpr hth
    refine ⟨?_, ?_, ?_, ?_, ?_⟩
    · rw [if_neg hgt]
    · rw [if_neg hgt]
    · rw [if_neg hgt]
      exact Statetransition.lookupAssoc_setAssoc_self _ _ _
    · intro hP
      exact absurd hP.1 hgt
    · intro _
      rfl
  · rw [if_neg hth]
    push_neg at hth
    refine ⟨?_, ?_, ?_, ?_, ?_⟩
    · rw [if_pos hth]
    · rw [if_pos hth]
    · rw [if_pos hth]
      exact Statetransition.lookupAssoc_eraseAssoc_self _ _
    · intro hP
      have hgap : Statetransition.hasJustifiableGap att.data.source.slot
          att.data.target.slot fs0 = false := by
        rcases Bool.eq_false_or_eq_true (Statetransition.hasJustifiableGap
          att.data.source.slot att.data.target.slot fs0) with h | h
        · exact absurd ((hasJustifiableGap_iff _ _ _).mp h) hP.2
        · exact h
      simp only [hgap, Bool.false_eq_true, if_false]
    · intro hP
      by_cases hgap : Statetransition.hasJustifiableGap att.data.source.slot
          att.data.target.slot fs0 = true
      · simp only [hgap, if_true]
      · exact absurd ⟨by omega, fun hex => hgap ((hasJustifiableGap_iff _ _ _).mpr hex)⟩ hP

/-- Concrete loop-state for the C4 witness: one validator, slot 0
justified, no pending votes. -/
def c4AccW : Statetransition.JState :=
  { justifications := []
    justifiedSlots := [3]
    latestJustified := { root := 5, slot := 0 }
    latestFinalized := { root := 0, slot := 0 } }

/-- Concrete attestation for the C4 witness: validator 0 votes source
slot 0 → target slot 1. -/
def c4AttW : Attestation :=
  { validatorId := 0
    data := { slot := 1, head := { root := 7, slot := 1 },
              target := { root := 7, slot := 1 }, source := { root := 5, slot := 0 } } }

/-! ### Claim C5: length invariants of reachable states -/

/-- States reachable from a generated genesis by repeated `StateTransition`. -/
inductive Reachable (H : Hasher) : State → Prop where
  | genesis (genesisTime : Nat) (validators : List Validator) :
      Reachable H (Statetransition.GenerateGenesis H genesisTime validators)
  | step {s s' : State} (b : Block) :
      Reachable H s → Statetransition.StateTransition H s b = .ok s' → Reachable H s'

/-- The inductive invariant behind C5: the justified-slots bitlist is a
well-formed encoding whose length equals the historical-hash count, which
equals the latest header's slot, which equals the state's slot. -/
def StInv (s : State) : Prop :=
  ∃ bits : List Bool,
    IsEnc s.justifiedSlots bits ∧
    bits.length = s.historicalBlockHashes.length ∧
    s.historicalBlockHashes.length = s.latestBlockHeader.slot ∧
    s.latestBlockHeader.slot = s.slot

lemma stInv_genesis (H : Hasher) (t : Nat) (vals : List Validator) :
    StInv (Statetransition.GenerateGenesis H t vals) :=
  ⟨[], isEnc_empty, rfl, rfl, rfl⟩

lemma processSlot_fields (H : Hasher) (s : State) :
    (Statetransition.ProcessSlot H s).slot = s.slot ∧
    (Statetransition.ProcessSlot H s).justifiedSlots = s.justifiedSlots ∧
    (Statetransition.ProcessSlot H s).historicalBlockHashes = s.historicalBlockHashes ∧
    (Statetransition.ProcessSlot H s).latestBlockHeader.slot = s.latestBlockHeader.slot := by
  unfold Statetransition.ProcessSlot
  split <;> simp

lemma processSlotsGo_spec (H : Hasher) (target : Nat) :
    ∀ fuel s, s.slot + fuel = target →
      (Statetransition.processSlotsGo H target fuel s).slot = target ∧
      (Statetransition.processSlotsGo H target fuel s).justifiedSlots = s.justifiedSlots ∧
      (Statetransition.processSlotsGo H target fuel s).historicalBlockHashes =
        s.historicalBlockHashes ∧
      (Statetransition.processSlotsGo H target fuel s).latestBlockHeader.slot =
        s.latestBlockHeader.slot := by
  intro fuel
  induction fuel with
  | zero =>
      intro s h
      simp [Statetransition.processSlotsGo]
      omega
  | succ f ih =>
      intro s h
      have hlt : s.slot < target := by omega
      rw [Statetransition.processSlotsGo, if_pos hlt]
      obtain ⟨e1, e2, e3, e4⟩ := processSlot_fields H s
      obtain ⟨r1, r2, r3, r4⟩ := ih { Statetransition.ProcessSlot H s with
        slot := (Statetransition.ProcessSlot H s).slot + 1 } (by simp [e1]; omega)
      refine ⟨r1, ?_, ?_, ?_⟩
      · rw [r2]; simpa using e2
      · rw [r3]; simpa using e3
      · rw [r4]; simpa using e4

lemma fillEmptySlots_spec :
    ∀ (k : Nat) (s : State) (bits : List Bool), IsEnc s.justifiedSlots bits →
      IsEnc (Statetransition.fillEmptySlots k s).justifiedSlots
          (bits ++ List.replicate k false) ∧
      (Statetransition.fillEmptySlots k s).historicalBlockHashes =
        s.historicalBlockHashes ++ List.replicate k ZeroHash ∧
      (Statetransition.fillEmptySlots k s).slot = s.slot ∧
      (Statetransition.fillEmptySlots k s).latestBlockHeader = s.latestBlockHeader ∧
      (Statetransition.fillEmptySlots k s).latestJustified = s.latestJustified ∧
      (Statetransition.fillEmptySlots k s).latestFinalized = s.latestFinalized := by
  intro k
  induction k with
  | zero =>
      intro s bits hE
      simp [Statetransition.fillEmptySlots]
      exact hE
  | succ m ih =>
      intro s bits hE
      rw [Statetransition.fillEmptySlots]
      have hE1 : IsEnc (AppendBit s.justifiedSlots false) (bits ++ [false]) :=
        appendBit_isEnc _ _ _ hE
      obtain ⟨r1, r2, r3, r4, r5, r6⟩ := ih
        { s with historicalBlockHashes := s.historicalBlockHashes ++ [ZeroHash],
                 justifiedSlots := AppendBit s.justifiedSlots false }
        (bits ++ [false]) hE1
      refine ⟨?_, ?_, r3, r4, r5, r6⟩
      · have hrep : bits ++ [false] ++ List.replicate m false =
            bits ++ List.replicate (m + 1) false := by
          simp [List.replicate_succ, List.append_assoc]
        rw [← hrep]
        exact r1
      · rw [r2]
        simp [List.replicate_succ, List.append_assoc]

lemma justifyExtend_of_lt (tgt : Nat) (js : List Nat) (h : tgt < BitlistLen js) :
    Statetransition.justifyExtend tgt js = js := by
  unfold Statetransition.justifyExtend
  rw [Statetransition.justifyExtendGo, if_neg (by omega)]

lemma processAttStep_js (n : Nat) (hbh : List Nat) (fs0 : Nat)
    (acc : Statetransition.JState) (att : Attestation) :
    (Statetransition.processAttStep n hbh fs0 acc att).justifiedSlots =
      acc.justifiedSlots ∨
    (att.data.target.slot < hbh.length ∧
      (Statetransition.processAttStep n hbh fs0 acc att).justifiedSlots =
        SetBit (Statetransition.justifyExtend att.data.target.slot acc.justifiedSlots)
          att.data.target.slot true) := by
  unfold Statetransition.processAttStep
  by_cases h1 : att.data.target.slot ≤ att.data.source.slot
  · rw [if_pos h1]; left; rfl
  rw [if_neg h1]
  by_cases h2 : att.data.source.slot ≥ BitlistLen acc.justifiedSlots ∨
      ¬ GetBit acc.justifiedSlots att.data.source.slot
  · rw [if_pos h2]; left; rfl
  rw [if_neg h2]
  by_cases h3 : att.data.target.slot < BitlistLen acc.justifiedSlots ∧
      GetBit acc.justifiedSlots att.data.target.slot
  · rw [if_pos h3]; left; rfl
  rw [if_neg h3]
  by_cases h4 : att.data.source.slot ≥ hbh.length ∨
      hbh.getD att.data.source.slot 0 ≠ att.data.source.root
  · rw [if_pos h4]; left; rfl
  rw [if_neg h4]
  by_cases h5 : att.data.target.slot ≥ hbh.length ∨
      hbh.getD att.data.target.slot 0 ≠ att.data.target.root
  · rw [if_pos h5]; left; rfl
  rw [if_neg h5]
  push_neg at h5
  by_cases h6 : ¬ IsJustifiableAfter att.data.target.slot fs0
  · rw [if_pos h6]; left; rfl
  rw [if_neg h6]
  by_cases h7 : att.validatorId ≥ n
  · rw [if_pos h7]; left; rfl
  rw [if_neg h7]
  cases hlk : Statetransition.lookupAssoc acc.justifications att.data.target.root with
  | none =>
      simp only [hlk]
      by_cases h8 : (List.replicate n false).getD att.validatorId false
      · rw [if_pos h8]; left; rfl
      rw [if_neg h8]
      by_cases h9 : 3 * (((List.replicate n false).set att.validatorId true).count true) < 2 * n
      · rw [if_pos h9]; left; rfl
      rw [if_neg h9]
      right
      exact ⟨h5.1, rfl⟩
  | some vs =>
      simp only [hlk]
      by_cases h8 : vs.getD att.validatorId false
      · rw [if_pos h8]; left; rfl
      rw [if_neg h8]
      by_cases h9 : 3 * ((vs.set att.validatorId true).count true) < 2 * n
      · rw [if_pos h9]; left; rfl
      rw [if_neg h9]
      right
      exact ⟨h5.1, rfl⟩

lemma processAttStep_isEnc (n : Nat) (hbh : List Nat) (fs0 : Nat)
    (acc : Statetransition.JState) (att : Attestation) (bits : List Bool)
    (hE : IsEnc acc.justifiedSlots bits) (hlen : bits.length = hbh.length) :
    ∃ bits2, IsEnc (Statetransition.processAttStep n hbh fs0 acc att).justifiedSlots bits2 ∧
      bits2.length = hbh.length := by
  rcases processAttStep_js n hbh fs0 acc att with h | ⟨htgt, h⟩
  · exact ⟨bits, h ▸ hE, hlen⟩
  · have hblen : BitlistLen acc.justifiedSlots = bits.length := bitlistLen_isEnc _ _ hE
    have hlt : att.data.target.slot < bits.length := by omega
    rw [h, justifyExtend_of_lt _ _ (by omega)]
    refine ⟨bits.set att.data.target.slot true, setBit_isEnc _ _ _ _ hE hlt, ?_⟩
    simp [hlen]

lemma foldl_attSteps_isEnc (n : Nat) (hbh : List Nat) (fs0 : Nat) :
    ∀ (atts : List Attestation) (acc : Statetransition.JState) (bits : List Bool),
      IsEnc acc.justifiedSlots bits → bits.length = hbh.length →
      ∃ bits2,
        IsEnc ((atts.foldl (Statetransition.processAttStep n hbh fs0) acc).justifiedSlots) bits2 ∧
        bits2.length = hbh.length := by
  intro atts
  induction atts with
  | nil =>
      intro acc bits hE hlen
      exact ⟨bits, hE, hlen⟩
  | cons a t ih =>
      intro acc bits hE hlen
      obtain ⟨bits2, hE2, hlen2⟩ := processAttStep_isEnc n hbh fs0 acc a bits hE hlen
      exact ih _ bits2 hE2 hlen2

lemma processAttestations_isEnc (st : State) (atts : List Attestation)
    (bits : List Bool) (hE : IsEnc st.justifiedSlots bits)
    (hlen : bits.length = st.historicalBlockHashes.length) :
    ∃ bits2,
      IsEnc (Statetransition.ProcessAttestations st atts).justifiedSlots bits2 ∧
      bits2.length = st.historicalBlockHashes.length := by
  exact foldl_attSteps_isEnc st.validators.length st.historicalBlockHashes
    st.latestFinalized.slot atts _ bits hE hlen

lemma stInv_stateTransition (H : Hasher) (s : State) (b : Block) (s' : State)
    (hInv : StInv s) (h : Statetransition.StateTransition H s b = .ok s') :
    StInv s' := by
  obtain ⟨bits, hE, hl1, hl2, hl3⟩ := hInv
  unfold Statetransition.StateTransition at h
  cases hps : Statetransition.ProcessSlots H s b.slot with
  | error e => simp [hps] at h
  | ok sA =>
      simp only [hps] at h
      unfold Statetransition.ProcessBlock at h
      cases hph : Statetransition.ProcessBlockHeader H sA b with
      | error e => simp [hph] at h
      | ok sB =>
          simp only [hph] at h
          by_cases hroot : b.stateRoot ≠
              H.hashState (Statetransition.ProcessAttestations sB b.body.attestations)
          · rw [if_pos hroot] at h
            exact Except.noConfusion h
          rw [if_neg hroot] at h
          have hs' : s' = Statetransition.ProcessAttestations sB b.body.attestations :=
            (Except.ok.inj h).symm
          -- Unpack the slot-advancement result.
          unfold Statetransition.ProcessSlots at hps
          by_cases hord : s.slot ≥ b.slot
          · rw [if_pos hord] at hps
            exact Except.noConfusion hps
          rw [if_neg hord] at hps
          push_neg at hord
          have hsA : sA = Statetransition.processSlotsGo H b.slot (b.slot - s.slot) s :=
            (Except.ok.inj hps).symm
          obtain ⟨pA1, pA2, pA3, pA4⟩ :=
            processSlotsGo_spec H b.slot (b.slot - s.slot) s (by omega)
          rw [← hsA] at pA1 pA2 pA3 pA4
          -- Unpack the header-processing result.
          unfold Statetransition.ProcessBlockHeader at hph
          by_cases hc1 : b.slot ≠ sA.slot
          · rw [if_pos hc1] at hph
            exact Except.noConfusion hph
          rw [if_neg hc1] at hph
          push_neg at hc1
          by_cases hc2 : b.slot ≤ sA.latestBlockHeader.slot
          · rw [if_pos hc2] at hph
            exact Except.noConfusion hph
          rw [if_neg hc2] at hph
          push_neg at hc2
          by_cases hc3 : ¬ Statetransition.IsProposer b.proposerIndex sA.slot
              sA.validators.length
          · rw [if_pos hc3] at hph
            exact Except.noConfusion hph
          rw [if_neg hc3] at hph
          by_cases hc4 : b.parentRoot ≠ H.hashHeader sA.latestBlockHeader
          · rw [if_pos hc4] at hph
            exact Except.noConfusion hph
          rw [if_neg hc4] at hph
          have hsB := (Except.ok.inj hph).symm
          -- Facts about the promoted state (checkpoint promotion leaves the
          -- header, hashes and bitlist untouched).
          set s1 := (if sA.latestBlockHeader.slot = 0 then
              { sA with
                latestJustified := { root := b.parentRoot, slot := sA.latestJustified.slot },
                latestFinalized := { root := b.parentRoot, slot := sA.latestFinalized.slot } }
            else sA) with hs1
    
          have hs1js : s1.justifiedSlots = sA.justifiedSlots := by
            rw [hs1]; split <;> rfl
          have hs1hbh : s1.historicalBlockHashes = sA.historicalBlockHashes := by
            rw [hs1]; split <;> rfl
          have hs1slot : s1.slot = sA.slot := by
            rw [hs1]; split <;> rfl
          have hEA : IsEnc sA.justifiedSlots bits := pA2 ▸ hE
          have hE2 : IsEnc (AppendBit s1.justifiedSlots (decide (sA.latestBlockHeader.slot = 0)))
              (bits ++ [decide (sA.latestBlockHeader.slot = 0)]) := by
            rw [hs1js]
            exact appendBit_isEnc _ _ _ hEA
          obtain ⟨f1, f2, f3, f4, _, _⟩ := fillEmptySlots_spec
            (b.slot - sA.latestBlockHeader.slot - 1)
            { s1 with
              historicalBlockHashes := s1.historicalBlockHashes ++ [b.parentRoot],
              justifiedSlots := AppendBit s1.justifiedSlots (decide (sA.latestBlockHeader.slot = 0)) }
            (bits ++ [decide (sA.latestBlockHeader.slot = 0)]) hE2
          subst hs'
          rw [hsB]
          set sC := Statetransition.fillEmptySlots (b.slot - sA.latestBlockHeader.slot - 1)
            { s1 with
              historicalBlockHashes := s1.historicalBlockHashes ++ [b.parentRoot],
              justifiedSlots :=
                AppendBit s1.justifiedSlots (decide (sA.latestBlockHeader.slot = 0)) }
            with hsC
          have hsClen : sC.historicalBlockHashes.length = b.slot := by
            rw [f2]
            simp only [List.length_append, List.length_replicate, List.length_cons,
              List.length_nil, hs1hbh, pA3]
            omega
          have hlenIn : (bits ++ [decide (sA.latestBlockHeader.slot = 0)] ++
              List.replicate (b.slot - sA.latestBlockHeader.slot - 1) false).length =
              sC.historicalBlockHashes.length := by
            rw [hsClen]
            simp only [List.length_append, List.length_replicate, List.length_cons,
              List.length_nil]
            omega
          obtain ⟨bits2, hE2', hlen2⟩ := processAttestations_isEnc
            { sC with
              latestBlockHeader :=
                { slot := b.slot, proposerIndex := b.proposerIndex,
                  parentRoot := b.parentRoot, bodyRoot := H.hashBody b.body,
                  stateRoot := ZeroHash } }
            b.body.attestations
            (bits ++ [decide (sA.latestBlockHeader.slot = 0)] ++
              List.replicate (b.slot - sA.latestBlockHeader.slot - 1) false)
            f1 hlenIn
          refine ⟨bits2, hE2', ?_, ?_, ?_⟩
          · exact hlen2
          · show sC.historicalBlockHashes.length = b.slot
            exact hsClen
          · show b.slot = sC.slot
            rw [f3]
            simp only [hs1slot]
            exact hc1

/-- C5: for every state reachable from a generated genesis by
`state_transition` (each applied block necessarily has slot ≥ 1), the
justified-slots bitlist length equals the historical-block-hash count,
which equals the state's slot.  Gap slots are filled by
`ProcessBlockHeader`/`fillEmptySlots` with `ZERO_ROOT` entries and
`false` justified bits. -/
theorem c5_length_invariant (H : Hasher) (s : State) (h : Reachable H s) :
    BitlistLen s.justifiedSlots = s.historicalBlockHashes.length ∧
    s.historicalBlockHashes.length = s.slot := by
  have hInv : StInv s := by
    induction h with
    | genesis t vals => exact stInv_genesis H t vals
    | step b hr hst ih => exact stInv_stateTransition H _ b _ ih hst
  obtain ⟨bits, hE, hl1, hl2, hl3⟩ := hInv
  refine ⟨?_, by omega⟩
  rw [bitlistLen_isEnc _ _ hE, hl1]

/-- Concrete hash collaborators for the C5 witness. -/
def c5HasherW : Hasher :=
  { hashState := fun _ => 7, hashHeader := fun _ => 3, hashBody := fun _ => 4,
    hashBlock := fun _ => 9, hashAttestation := fun _ => 11,
    hashAttestationData := fun _ => 13 }

/-- Concrete genesis state (one validator) for the C5 witness. -/
def c5GenesisW : State :=
  Statetransition.GenerateGenesis c5HasherW 1000 [{ pubkey := 0, index := 0 }]

/-- Concrete slot-1 block for the C5 witness. -/
def c5BlockW : Block :=
  { slot := 1, proposerIndex := 0, parentRoot := 3, stateRoot := 7,
    body := { attestations := [] } }

/-- The post-state of the C5 witness transition. -/
def c5PostW : State :=
  (Statetransition.StateTransition c5HasherW c5GenesisW c5BlockW).toOption.getD c5GenesisW

/-- C5 witness: the invariant evaluated on the concrete state reached by
one successful `StateTransition` from genesis (a block at slot 1). -/
theorem c5_length_invariant_witness :
    BitlistLen c5PostW.justifiedSlots = c5PostW.historicalBlockHashes.length ∧
    c5PostW.historicalBlockHashes.length = c5PostW.slot := by
  have hok : Statetransition.StateTransition c5HasherW c5GenesisW c5BlockW = .ok c5PostW := by
    rfl
  exact c5_length_invariant c5HasherW c5PostW
    (Reachable.step c5BlockW (Reachable.genesis 1000 [{ pubkey := 0, index := 0 }]) hok)

/-- C4 witness: with one validator, the single vote justifies the target
and finalizes the source at the concrete inputs above. -/
theorem c4_justify_finalize_conditions_witness :
    (Statetransition.processAttStep 1 [5, 7] 0 c4AccW c4AttW).latestJustified =
      { root := 7, slot := 1 } ∧
    (Statetransition.processAttStep 1 [5, 7] 0 c4AccW c4AttW).latestFinalized =
      { root := 5, slot := 0 } := by
  have h := c4_justify_finalize_conditions 1 [5, 7] 0 c4AccW c4AttW [true]
    (by decide) (by decide) (by decide) (by decide) (by decide) (by decide)
    (by decide) (by decide) (by decide) (by decide) (by decide) (by decide)
  refine ⟨?_, ?_⟩
  · rw [h.1, if_pos (by decide)]
    decide
  · have h2 := h.2.2.2.1 ⟨by decide, fun hex => by
      obtain ⟨s, hs1, hs2, _⟩ := hex
      simp [c4AttW] at hs1 hs2
      omega⟩
    simpa [c4AttW] using h2

/-! ### Fork choice (package `chain/forkchoice`) -/

namespace Forkchoice

/-- `types.SignedAttestation`, current generation: validator id, the
attestation data as `Message`, and one signature. -/
structure SignedAttestation where
  validatorId : Nat
  message : AttestationData
  signature : Nat
deriving DecidableEq, Repr

/-- `types.SignedAttestation`, legacy generation (wrapping a whole
`Attestation`), as consumed by the older `attestation.go`. -/
structure SignedAttestationLegacy where
  message : Attestation
  signature : Nat
deriving DecidableEq, Repr

/-- `storage.Store`: content-addressed maps for blocks, signed envelopes
and post-states. -/
structure Storage where
  blocks : List (Nat × Block)
  signedBlocks : List (Nat × SignedBlockWithAttestation)
  states : List (Nat × State)
deriving DecidableEq, Repr

def getBlock (st : Storage) (r : Nat) : Option Block :=
  Statetransition.lookupAssoc st.blocks r

def getState (st : Storage) (r : Nat) : Option State :=
  Statetransition.lookupAssoc st.states r

def putBlock (st : Storage) (r : Nat) (b : Block) : Storage :=
  { st with blocks := Statetransition.setAssoc st.blocks r b }

def putSignedBlock (st : Storage) (r : Nat) (e : SignedBlockWithAttestation) : Storage :=
  { st with signedBlocks := Statetransition.setAssoc st.signedBlocks r e }

def putState (st : Storage) (r : Nat) (s : State) : Storage :=
  { st with states := Statetransition.setAssoc st.states r s }

/-- `hashGreater`: byte-wise lexicographic comparison of two 32-byte
roots, which is the numeric order of their big-endian values. -/
def hashGreater (a b : Nat) : Bool :=
  decide (a > b)

/-- The slot of the block stored under `h` (a missing key yields Go's
zero-value block, whose slot is 0). -/
def blockSlot (blocks : List (Nat × Block)) (h : Nat) : Nat :=
  match Statetransition.lookupAssoc blocks h with
  | some b => b.slot
  | none => 0

/-- Start-of-`GetForkChoiceHead` resolution: a `ZeroHash` root is replaced
by the known block with the smallest slot (`minSlot := ^uint64(0)`,
strict `<`, first minimum in iteration order). -/
def resolveZeroRoot (blocks : List (Nat × Block)) (root : Nat) : Nat :=
  if root = ZeroHash then
    (blocks.foldl
      (fun acc p => if p.2.slot < acc.1 then (p.2.slot, p.1) else acc)
      (18446744073709551615, ZeroHash)).2
  else root

def weightOf (w : List (Nat × Nat)) (k : Nat) : Nat :=
  (Statetransition.lookupAssoc w k).getD 0

def bumpWeight (w : List (Nat × Nat)) (k : Nat) : List (Nat × Nat) :=
  Statetransition.setAssoc w k (weightOf w k + 1)

/-- The per-attestation ancestor walk of the vote-weight loop
(`for { b := blocks[h]; if !ok or b.Slot <= rootSlot break; w[h]++; h = b.ParentRoot }`),
with explicit fuel; the Go loop terminates whenever parent links are
acyclic, which one unit of fuel per stored block covers. -/
def countVotesGo (blocks : List (Nat × Block)) (rootSlot : Nat) :
    Nat → Nat → List (Nat × Nat) → List (Nat × Nat)
  | 0, _, w => w
  | fuel + 1, h, w =>
      match Statetransition.lookupAssoc blocks h with
      | none => w
      | some b =>
          if b.slot ≤ rootSlot then w
          else countVotesGo blocks rootSlot fuel b.parentRoot (bumpWeight w h)

/-- Vote-weight accumulation over all latest attestations. -/
def computeVoteWeights (blocks : List (Nat × Block)) (rootSlot : Nat) (fuel : Nat)
    (atts : List (Nat × SignedAttestation)) : List (Nat × Nat) :=
  atts.foldl
    (fun w p =>
      if (Statetransition.lookupAssoc blocks p.2.message.head.root).isSome then
        countVotesGo blocks rootSlot fuel p.2.message.head.root w
      else w)
    []

/-- `childrenMap` construction: append every block whose weight reaches
`minScore` to its parent's child list. -/
def buildChildren (blocks : List (Nat × Block)) (w : List (Nat × Nat))
    (minScore : Int) : List (Nat × List Nat) :=
  blocks.foldl
    (fun cm p =>
      if (weightOf w p.1 : Int) ≥ minScore then
        Statetransition.setAssoc cm p.2.parentRoot
          ((Statetransition.lookupAssoc cm p.2.parentRoot).getD [] ++ [p.1])
      else cm)
    []

/-- The child-comparison of the walk: higher weight, tie-broken by higher
slot, then by lexicographically greater root. -/
def betterChild (blocks : List (Nat × Block)) (w : List (Nat × Nat)) (c best : Nat) : Bool :=
  decide (weightOf w c > weightOf w best) ||
  (decide (weightOf w c = weightOf w best) &&
    decide (blockSlot blocks c > blockSlot blocks best)) ||
  (decide (weightOf w c = weightOf w best) &&
    decide (blockSlot blocks c = blockSlot blocks best) && hashGreater c best)

/-- The descent loop of `GetForkChoiceHead`, with explicit fuel (the Go
loop terminates whenever parent links are acyclic). -/
def walkDown (blocks : List (Nat × Block)) (w : List (Nat × Nat))
    (cm : List (Nat × List Nat)) : Nat → Nat → Nat
  | 0, current => current
  | fuel + 1, current =>
      match (Statetransition.lookupAssoc cm current).getD [] with
      | [] => current
      | c :: rest =>
          walkDown blocks w cm fuel
            (rest.foldl (fun best x => if betterChild blocks w x best then x else best) c)

/-- `GetForkChoiceHead` (LMD GHOST head selection). -/
def GetForkChoiceHead (fuel : Nat) (store : Storage) (root : Nat)
    (latestAttestations : List (Nat × SignedAttestation)) (minScore : Int) : Nat :=
  let blocks := store.blocks
  let root := resolveZeroRoot blocks root
  if latestAttestations.isEmpty then root
  else
    match Statetransition.lookupAssoc blocks root with
    | none => root
    | some rootBlock =>
        let w := computeVoteWeights blocks rootBlock.slot fuel latestAttestations
        let cm := buildChildren blocks w minScore
        walkDown blocks w cm fuel root

/-- Fork-choice error/rejection reasons (§7; Go uses strings and logged
reasons, embedded as tags). -/
inductive FCErr where
  | sourceUnknown
  | targetUnknown
  | headUnknown
  | topology
  | sourceMismatch
  | targetMismatch
  | tooFarFuture
  | headStateNotFound
  | invalidValidator
  | sigInvalid
  | parentStateNotFound
  | stateTransition (e : Statetransition.StError)
  | sigCountMismatch
  | bodySigInvalid (i : Nat)
  | proposerSigInvalid
deriving DecidableEq, Repr

/-- The fork-choice `Store`'s mutable fields (current generation, with
the injected clock callback `NowFn` absent). -/
structure Store where
  time : Nat
  genesisTime : Nat
  numValidators : Nat
  head : Nat
  safeTarget : Nat
  latestJustified : Checkpoint
  latestFinalized : Checkpoint
  storage : Storage
  latestKnownAttestations : List (Nat × SignedAttestation)
  latestNewAttestations : List (Nat × SignedAttestation)
deriving DecidableEq, Repr

/-- External collaborators of the fork-choice store: the hash functions,
the XMSS `Verify` (pubkey, signing context, message root, signature),
and the `shouldVerifySignatures` build flag. -/
structure Env where
  hasher : Hasher
  verify : Nat → Nat → Nat → Nat → Bool
  verifySigs : Bool

/-- `validateAttestationData` (availability, topology, consistency and
time checks). -/
def validateAttestationData (c : Store) (data : AttestationData) : Option FCErr :=
  match getBlock c.storage data.source.root with
  | none => some .sourceUnknown
  | some sourceBlock =>
      match getBlock c.storage data.target.root with
      | none => some .targetUnknown
      | some targetBlock =>
          if (getBlock c.storage data.head.root).isNone then some .headUnknown
          else if sourceBlock.slot > targetBlock.slot then some .topology
          else if data.source.slot > data.target.slot then some .topology
          else if sourceBlock.slot ≠ data.source.slot then some .sourceMismatch
          else if targetBlock.slot ≠ data.target.slot then some .targetMismatch
          else if data.slot > c.time / IntervalsPerSlot + 1 then some .tooFarFuture
          else none

/-- `verifyAttestationSignatureWithState` (block.go): look up the
validator's pubkey in the given state and verify the XMSS signature over
`HashTreeRoot(attestation)` with signing context `uint32(data.slot)`,
i.e. `data.slot mod 2^32`. -/
def verifyAttestationSignatureWithState (verify : Nat → Nat → Nat → Nat → Bool)
    (hashAtt : Attestation → Nat) (state : State) (att : Attestation) (sig : Nat) :
    Option FCErr :=
  if att.validatorId ≥ state.validators.length then some .invalidValidator
  else
    let pubkey := (state.validators.getD att.validatorId { pubkey := 0, index := 0 }).pubkey
    let messageRoot := hashAtt att
    let signingSlot := att.data.slot % 4294967296
    if verify pubkey signingSlot messageRoot sig then none else some .sigInvalid

/-- `verifyAttestationSignature` (current generation): delegate to
`verifyAttestationSignatureWithState` on the head state. -/
def verifyAttestationSignature (env : Env) (c : Store) (sa : SignedAttestation) :
    Option FCErr :=
  match getState c.storage c.head with
  | none => some .headStateNotFound
  | some headState =>
      verifyAttestationSignatureWithState env.verify env.hasher.hashAttestation headState
        { validatorId := sa.validatorId, data := sa.message } sa.signature

/-- The update phase of `processAttestationLocked`: on-chain attestations
supersede `latest_known` entries of strictly lower `data.slot` and drop a
pending `latest_new` entry of `data.slot ≤` the incoming one; gossip
attestations (not from a block) are dropped when ahead of the current
slot and otherwise supersede `latest_new` entries of strictly lower
`data.slot`. -/
def attUpdatePhase (c : Store) (sa : SignedAttestation) (isFromBlock : Bool) : Store :=
  let data := sa.message
  let validatorId := sa.validatorId
  if isFromBlock then
    let c1 :=
      match Statetransition.lookupAssoc c.latestKnownAttestations validatorId with
      | none =>
          { c with latestKnownAttestations :=
              Statetransition.setAssoc c.latestKnownAttestations validatorId sa }
      | some existing =>
          if existing.message.slot < data.slot then
            { c with latestKnownAttestations :=
                Statetransition.setAssoc c.latestKnownAttestations validatorId sa }
          else c
    match Statetransition.lookupAssoc c1.latestNewAttestations validatorId with
    | some newAtt =>
        if newAtt.message.slot ≤ data.slot then
          { c1 with latestNewAttestations :=
              Statetransition.eraseAssoc c1.latestNewAttestations validatorId }
        else c1
    | none => c1
  else
    let currentSlot := c.time / IntervalsPerSlot
    if data.slot > currentSlot then c
    else
      match Statetransition.lookupAssoc c.latestNewAttestations validatorId with
      | none =>
          { c with latestNewAttestations :=
              Statetransition.setAssoc c.latestNewAttestations validatorId sa }
      | some existing =>
          if existing.message.slot < data.slot then
            { c with latestNewAttestations :=
                Statetransition.setAssoc c.latestNewAttestations validatorId sa }
          else c

/-- `processAttestationLocked` (current generation): validate, verify the
signature for gossip input when signature checking is enabled, then run
the update phase. -/
def processAttestationLocked (env : Env) (c : Store) (sa : SignedAttestation)
    (isFromBlock : Bool) : Store :=
  if (validateAttestationData c sa.message).isSome then c
  else if !isFromBlock && env.verifySigs then
    if (verifyAttestationSignature env c sa).isSome then c
    else attUpdatePhase c sa isFromBlock
  else attUpdatePhase c sa isFromBlock

/-- Modelled from the spec: the current-generation `updateHeadLocked` is
called by `ProcessBlock` (block.go) but its defining file is not under
`src/` (the only `updateHeadLocked` there belongs to an older generation
over checkpoint-vote maps).  Per §4.D step 9 the head is recomputed via
GHOST over the known attestations from the latest justified root with
min score 0. -/
def updateHeadLocked (c : Store) : Store :=
  { c with head :=
      (GetForkChoiceHead (c.storage.blocks.length + 1) c.storage c.latestJustified.root
        c.latestKnownAttestations 0) }

/-- Body-attestation verification loop of `ProcessBlock` (index-paired
signatures, first failure aborts). -/
def verifyBodyAttSignaturesGo (verify : Nat → Nat → Nat → Nat → Bool)
    (hashAtt : Attestation → Nat) (parentState : State) :
    Nat → List (Attestation × Nat) → Option FCErr
  | _, [] => none
  | i, (att, sig) :: rest =>
      if (verifyAttestationSignatureWithState verify hashAtt parentState att sig).isSome then
        some (.bodySigInvalid i)
      else verifyBodyAttSignaturesGo verify hashAtt parentState (i + 1) rest

/-- Signature verification step of `ProcessBlock`: body attestations in
order, then the proposer attestation when present (its signature is the
last vector entry). -/
def verifyBlockSignatures (env : Env) (parentState : State)
    (envelope : SignedBlockWithAttestation) (numBodyAtts : Nat) : Option FCErr :=
  match verifyBodyAttSignaturesGo env.verify env.hasher.hashAttestation parentState 0
      (envelope.message.block.body.attestations.zip envelope.signature) with
  | some e => some e
  | none =>
      match envelope.message.proposerAttestation with
      | none => none
      | some pa =>
          if (verifyAttestationSignatureWithState env.verify env.hasher.hashAttestation
              parentState pa (envelope.signature.getD numBodyAtts 0)).isSome then
            some .proposerSigInvalid
          else none

/-- `ProcessBlock` (block.go, current generation; the injected clock
callback `NowFn` is absent, so no time advance happens on entry).  Note
the first `PutState` happens before signature verification. -/
def ProcessBlock (env : Env) (c : Store) (envelope : SignedBlockWithAttestation) :
    Store × Option FCErr :=
  let block := envelope.message.block
  let blockHash := env.hasher.hashBlock block
  if (getBlock c.storage blockHash).isSome then (c, none)
  else
    match getState c.storage block.parentRoot with
    | none => (c, some .parentStateNotFound)
    | some parentState =>
        match Statetransition.StateTransition env.hasher parentState block with
        | .error e => (c, some (.stateTransition e))
        | .ok state =>
            let numBodyAtts := block.body.attestations.length
            let expectedSigs :=
              match envelope.message.proposerAttestation with
              | some _ => numBodyAtts + 1
              | none => numBodyAtts
            if envelope.signature.length ≠ expectedSigs then (c, some .sigCountMismatch)
            else
              let c1 := { c with storage := putState c.storage blockHash state }
              match (if env.verifySigs then
                  verifyBlockSignatures env parentState envelope numBodyAtts
                else none) with
              | some e => (c1, some e)
              | none =>
                  let c2 := { c1 with storage :=
                      (putState
                        (putSignedBlock (putBlock c1.storage blockHash block) blockHash envelope)
                        blockHash state) }
                  let c3 := { c2 with
                      latestJustified :=
                        if state.latestJustified.slot > c2.latestJustified.slot then
                          state.latestJustified
                        else c2.latestJustified,
                      latestFinalized :=
                        if state.latestFinalized.slot > c2.latestFinalized.slot then
                          state.latestFinalized
                        else c2.latestFinalized }
                  let c4 := (block.body.attestations.zip envelope.signature).foldl
                      (fun st p =>
                        processAttestationLocked env st
                          { validatorId := p.1.validatorId, message := p.1.data,
                            signature := p.2 } true)
                      c3
                  let c5 := updateHeadLocked c4
                  let c6 :=
                    match envelope.message.proposerAttestation with
                    | none => c5
                    | some pa =>
                        processAttestationLocked env c5
                          { validatorId := pa.validatorId, message := pa.data,
                            signature := envelope.signature.getD numBodyAtts 0 } false
                  (c6, none)

/-- Tail of `ProduceAttestation` (produce.go): hash the attestation
(validator id + data) and sign it with signing context
`uint32(data.Slot)`, i.e. `data.slot mod 2^32`. -/
def produceAttestationSign (signer : Nat → Nat → Option Nat)
    (hashAtt : Attestation → Nat) (validatorIndex : Nat) (data : AttestationData) :
    Option SignedAttestation :=
  let att : Attestation := { validatorId := validatorIndex, data := data }
  let messageRoot := hashAtt att
  let signingSlot := data.slot % 4294967296
  match signer signingSlot messageRoot with
  | none => none
  | some sig => some { validatorId := validatorIndex, message := data, signature := sig }

/-! #### Legacy generation (`attestation.go`): target-slot superseding
and epoch-based signing context -/

/-- The legacy fork-choice store fields used by the older
`attestation.go` (attestation maps over whole-`Attestation` envelopes). -/
structure StoreLegacy where
  time : Nat
  head : Nat
  storage : Storage
  latestKnownAttestations : List (Nat × SignedAttestationLegacy)
  latestNewAttestations : List (Nat × SignedAttestationLegacy)
deriving DecidableEq, Repr

/-- Legacy `validateAttestationLocked` (attestation.go 112-151). -/
def validateAttestationLockedLegacy (c : StoreLegacy) (att : Attestation) : Bool :=
  match getBlock c.storage att.data.source.root with
  | none => false
  | some sourceBlock =>
      match getBlock c.storage att.data.target.root with
      | none => false
      | some targetBlock =>
          if (getBlock c.storage att.data.head.root).isNone then false
          else if sourceBlock.slot > targetBlock.slot then false
          else if att.data.source.slot > att.data.target.slot then false
          else if sourceBlock.slot ≠ att.data.source.slot then false
          else if targetBlock.slot ≠ att.data.target.slot then false
          else if att.data.slot > c.time / IntervalsPerSlot + 1 then false
          else true

/-- The signing context of the legacy gossip verifier
(attestation.go 98): `uint32(target.slot / SlotsPerEpoch)`. -/
def epochSigningContextLegacy (d : AttestationData) : Nat :=
  (d.target.slot / SlotsPerEpoch) % 4294967296

/-- Legacy `verifyAttestationSignature` (attestation.go 69-109): verify
against the head state's pubkey over `HashTreeRoot(attestation data)`
with the epoch-based signing context. -/
def verifyAttestationSignatureLegacy (verify : Nat → Nat → Nat → Nat → Bool)
    (hashAttData : AttestationData → Nat) (c : StoreLegacy)
    (sa : SignedAttestationLegacy) : Bool :=
  match getState c.storage c.head with
  | none => false
  | some headState =>
      if sa.message.validatorId ≥ headState.validators.length then false
      else
        let pubkey :=
          (headState.validators.getD sa.message.validatorId { pubkey := 0, index := 0 }).pubkey
        verify pubkey (epochSigningContextLegacy sa.message.data)
          (hashAttData sa.message.data) sa.signature

/-- Legacy `processAttestationLocked` (attestation.go 19-67): validation,
unconditional signature verification, then the update phase, which keys
the pending-removal and the gossip superseding on `data.target.slot`. -/
def processAttestationLockedLegacy (verify : Nat → Nat → Nat → Nat → Bool)
    (hashAttData : AttestationData → Nat) (c : StoreLegacy)
    (sa : SignedAttestationLegacy) (isFromBlock : Bool) : StoreLegacy :=
  let att := sa.message
  let data := att.data
  let validatorId := att.validatorId
  if ¬ validateAttestationLockedLegacy c att then c
  else if ¬ verifyAttestationSignatureLegacy verify hashAttData c sa then c
  else if isFromBlock then
    let c1 :=
      match Statetransition.lookupAssoc c.latestKnownAttestations validatorId with
      | none =>
          { c with latestKnownAttestations :=
              Statetransition.setAssoc c.latestKnownAttestations validatorId sa }
      | some existing =>
          if existing.message.data.slot < data.slot then
            { c with latestKnownAttestations :=
                Statetransition.setAssoc c.latestKnownAttestations validatorId sa }
          else c
    match Statetransition.lookupAssoc c1.latestNewAttestations validatorId with
    | some newAtt =>
        if newAtt.message.data.target.slot ≤ data.target.slot then
          { c1 with latestNewAttestations :=
              Statetransition.eraseAssoc c1.latestNewAttestations validatorId }
        else c1
    | none => c1
  else
    let currentSlot := c.time / IntervalsPerSlot
    if data.slot > currentSlot then c
    else
      match Statetransition.lookupAssoc c.latestNewAttestations validatorId with
      | none =>
          { c with latestNewAttestations :=
              Statetransition.setAssoc c.latestNewAttestations validatorId sa }
      | some existing =>
          if existing.message.data.target.slot < data.target.slot then
            { c with latestNewAttestations :=
                Statetransition.setAssoc c.latestNewAttestations validatorId sa }
          else c

end Forkchoice

/-! ### Claim C9: GHOST with an empty attestation map -/

/-- C9: for every block store, starting root and min score (including 0),
`GetForkChoiceHead` with an empty attestation map returns the starting
root itself — after resolving a `ZeroHash` start to the block with the
smallest slot — without descending to any child, even when descendants
exist. -/
theorem c9_get_head_empty_attestations (fuel : Nat) (store : Forkchoice.Storage)
    (root : Nat) (minScore : Int) :
    Forkchoice.GetForkChoiceHead fuel store root [] minScore =
      Forkchoice.resolveZeroRoot store.blocks root := by
  simp [Forkchoice.GetForkChoiceHead]

/-! ### Claim C2: superseding keyed on `data.slot` -/

/-- C2 (amended): in the current `processAttestationLocked` (the variant
taking `AttestationData` envelopes), for an attestation passing
validation (and signature verification when enabled): an on-chain
attestation replaces `latest_known_attestations[v]` when absent or of
strictly lower `data.slot` and removes a pending
`latest_new_attestations[v]` of `data.slot ≤` the incoming one, and a
gossip attestation not ahead of the current slot replaces
`latest_new_attestations[v]` when absent or of strictly lower
`data.slot`; `data.target.slot` plays no role.  (The legacy variant in
`attestation.go` instead keys the removal and the gossip superseding on
`data.target.slot`; see the counterexample.) -/
theorem c2_superseding_by_data_slot (env : Forkchoice.Env) (c : Forkchoice.Store)
    (sa : Forkchoice.SignedAttestation)
    (hval : Forkchoice.validateAttestationData c sa.message = none)
    (hsig : env.verifySigs = true → Forkchoice.verifyAttestationSignature env c sa = none) :
    (Statetransition.lookupAssoc
        (Forkchoice.processAttestationLocked env c sa true).latestKnownAttestations
        sa.validatorId =
      (match Statetransition.lookupAssoc c.latestKnownAttestations sa.validatorId with
       | none => some sa
       | some existing =>
           if existing.message.slot < sa.message.slot then some sa else some existing)) ∧
    (Statetransition.lookupAssoc
        (Forkchoice.processAttestationLocked env c sa true).latestNewAttestations
        sa.validatorId =
      (match Statetransition.lookupAssoc c.latestNewAttestations sa.validatorId with
       | none => none
       | some pending =>
           if pending.message.slot ≤ sa.message.slot then none else some pending)) ∧
    (sa.message.slot ≤ c.time / IntervalsPerSlot →
      Statetransition.lookupAssoc
          (Forkchoice.processAttestationLocked env c sa false).latestNewAttestations
          sa.validatorId =
        (match Statetransition.lookupAssoc c.latestNewAttestations sa.validatorId with
         | none => some sa
         | some existing =>
             if existing.message.slot < sa.message.slot then some sa else some existing)) := by
  have hone : Forkchoice.processAttestationLocked env c sa true =
      Forkchoice.attUpdatePhase c sa true := by
    unfold Forkchoice.processAttestationLocked
    rw [if_neg (by simp [hval])]
    simp
  have hgos : Forkchoice.processAttestationLocked env c sa false =
      Forkchoice.attUpdatePhase c sa false := by
    unfold Forkchoice.processAttestationLocked
    rw [if_neg (by simp [hval])]
    by_cases hvs : env.verifySigs
    · simp only [Bool.not_false, Bool.true_and, hvs, if_true]
      rw [if_neg (by simp [hsig hvs])]
    · simp [hvs]
  refine ⟨?_, ?_, ?_⟩
  · rw [hone]
    unfold Forkchoice.attUpdatePhase
    rw [if_pos rfl]
    cases hk : Statetransition.lookupAssoc c.latestKnownAttestations sa.validatorId with
    | none =>
        simp only [hk]
        cases hn : Statetransition.lookupAssoc c.latestNewAttestations sa.validatorId with
        | none =>
            simp only [hn]
            exact Statetransition.lookupAssoc_setAssoc_self _ _ _
        | some newAtt =>
            simp only [hn]
            by_cases hle : newAtt.message.slot ≤ sa.message.slot
            · rw [if_pos hle]
              exact Statetransition.lookupAssoc_setAssoc_self _ _ _
            · rw [if_neg hle]
              exact Statetransition.lookupAssoc_setAssoc_self _ _ _
    | some existing =>
        simp only [hk]
        by_cases hlt : existing.message.slot < sa.message.slot
        · rw [if_pos hlt, if_pos hlt]
          cases hn : Statetransition.lookupAssoc c.latestNewAttestations sa.validatorId with
          | none =>
              simp only [hn]
              exact Statetransition.lookupAssoc_setAssoc_self _ _ _
          | some newAtt =>
              simp only [hn]
              by_cases hle : newAtt.message.slot ≤ sa.message.slot
              · rw [if_pos hle]
                exact Statetransition.lookupAssoc_setAssoc_self _ _ _
              · rw [if_neg hle]
                exact Statetransition.lookupAssoc_setAssoc_self _ _ _
        · rw [if_neg hlt, if_neg hlt]
          cases hn : Statetransition.lookupAssoc c.latestNewAttestations sa.validatorId with
          | none => simp only [hn, hk]
          | some newAtt =>
              simp only [hn]
              by_cases hle : newAtt.message.slot ≤ sa.message.slot
              · rw [if_pos hle]
                simp [hk]
              · rw [if_neg hle]
                simp [hk]
  · rw [hone]
    unfold Forkchoice.attUpdatePhase
    rw [if_pos rfl]
    cases hk : Statetransition.lookupAssoc c.latestKnownAttestations sa.validatorId with
    | none =>
        simp only [hk]
        cases hn : Statetransition.lookupAssoc c.latestNewAttestations sa.validatorId with
        | none => simp only [hn]
        | some newAtt =>
            simp only [hn]
            by_cases hle : newAtt.message.slot ≤ sa.message.slot
            · rw [if_pos hle, if_pos hle]
              exact Statetransition.lookupAssoc_eraseAssoc_self _ _
            · rw [if_neg hle, if_neg hle, hn]
    | some existing =>
        simp only [hk]
        by_cases hlt : existing.message.slot < sa.message.slot
        · rw [if_pos hlt]
          cases hn : Statetransition.lookupAssoc c.latestNewAttestations sa.validatorId with
          | none => simp only [hn]
          | some newAtt =>
              simp only [hn]
              by_cases hle : newAtt.message.slot ≤ sa.message.slot
              · rw [if_pos hle, if_pos hle]
                exact Statetransition.lookupAssoc_eraseAssoc_self _ _
              · rw [if_neg hle, if_neg hle, hn]
        · rw [if_neg hlt]
          cases hn : Statetransition.lookupAssoc c.latestNewAttestations sa.validatorId with
          | none => simp only [hn]
          | some newAtt =>
              simp only [hn]
              by_cases hle : newAtt.message.slot ≤ sa.message.slot
              · rw [if_pos hle, if_pos hle]
                exact Statetransition.lookupAssoc_eraseAssoc_self _ _
              · rw [if_neg hle, if_neg hle, hn]
  · intro ht
    rw [hgos]
    unfold Forkchoice.attUpdatePhase
    simp only [Bool.false_eq_true, if_false]
    rw [if_neg (by omega)]
    cases hn : Statetransition.lookupAssoc c.latestNewAttestations sa.validatorId with
    | none =>
        simp only [hn]
        exact Statetransition.lookupAssoc_setAssoc_self _ _ _
    | some existing =>
        simp only [hn]
        by_cases hlt : existing.message.slot < sa.message.slot
        · rw [if_pos hlt, if_pos hlt]
          exact Statetransition.lookupAssoc_setAssoc_self _ _ _
        · rw [if_neg hlt, if_neg hlt, hn]

/-- C2 witness data: the slot-0 block stored under root 10. -/
def c2Block10W : Block :=
  { slot := 0, proposerIndex := 0, parentRoot := 0, stateRoot := 0,
    body := { attestations := [] } }

/-- C2 witness data: the slot-1 block stored under root 20, child of 10. -/
def c2Block20W : Block :=
  { slot := 1, proposerIndex := 0, parentRoot := 10, stateRoot := 0,
    body := { attestations := [] } }

/-- C2 witness data: the incoming attestation (`data.slot = 2`). -/
def c2SaW : Forkchoice.SignedAttestation :=
  { validatorId := 0,
    message := { slot := 2, head := { root := 20, slot := 1 },
                 target := { root := 20, slot := 1 },
                 source := { root := 10, slot := 0 } },
    signature := 0 }

/-- C2 witness data: a pending gossip attestation of lower `data.slot`. -/
def c2PendingW : Forkchoice.SignedAttestation :=
  { validatorId := 0,
    message := { slot := 1, head := { root := 20, slot := 1 },
                 target := { root := 20, slot := 1 },
                 source := { root := 10, slot := 0 } },
    signature := 0 }

/-- C2 witness data: a fork-choice store at time 8 (current slot 2)
holding the two blocks and the pending attestation. -/
def c2StoreW : Forkchoice.Store :=
  { time := 8, genesisTime := 0, numValidators := 1, head := 20, safeTarget := 20,
    latestJustified := { root := 10, slot := 0 },
    latestFinalized := { root := 10, slot := 0 },
    storage := { blocks := [(10, c2Block10W), (20, c2Block20W)],
                 signedBlocks := [], states := [] },
    latestKnownAttestations := [],
    latestNewAttestations := [(0, c2PendingW)] }

/-- C2 witness data: a constant hasher (hash values are irrelevant to the
superseding logic). -/
def c2HasherW : Hasher :=
  { hashState := fun _ => 0, hashHeader := fun _ => 0, hashBody := fun _ => 0,
    hashBlock := fun _ => 0, hashAttestation := fun _ => 0,
    hashAttestationData := fun _ => 0 }

/-- C2 witness environment: signature checking disabled, as in the
default build. -/
def c2EnvW : Forkchoice.Env :=
  { hasher := c2HasherW, verify := fun _ _ _ _ => true, verifySigs := false }

/-- C2 witness: at the concrete store, the on-chain run records the
incoming attestation for validator 0 in `latest_known`, removes the
pending entry of lower `data.slot`, and the gossip run replaces that
pending entry. -/
theorem c2_superseding_by_data_slot_witness :
    (Statetransition.lookupAssoc
        (Forkchoice.processAttestationLocked c2EnvW c2StoreW c2SaW true).latestKnownAttestations
        c2SaW.validatorId =
      (match Statetransition.lookupAssoc c2StoreW.latestKnownAttestations c2SaW.validatorId with
       | none => some c2SaW
       | some existing =>
           if existing.message.slot < c2SaW.message.slot then some c2SaW else some existing)) ∧
    (Statetransition.lookupAssoc
        (Forkchoice.processAttestationLocked c2EnvW c2StoreW c2SaW true).latestNewAttestations
        c2SaW.validatorId =
      (match Statetransition.lookupAssoc c2StoreW.latestNewAttestations c2SaW.validatorId with
       | none => none
       | some pending =>
           if pending.message.slot ≤ c2SaW.message.slot then none else some pending)) ∧
    (c2SaW.message.slot ≤ c2StoreW.time / IntervalsPerSlot →
      Statetransition.lookupAssoc
          (Forkchoice.processAttestationLocked c2EnvW c2StoreW c2SaW false).latestNewAttestations
          c2SaW.validatorId =
        (match Statetransition.lookupAssoc c2StoreW.latestNewAttestations c2SaW.validatorId with
         | none => some c2SaW
         | some existing =>
             if existing.message.slot < c2SaW.message.slot then some c2SaW
             else some existing)) :=
  c2_superseding_by_data_slot c2EnvW c2StoreW c2SaW (by decide)
    (fun h => absurd h (by decide))

/-- C2 counterexample data: the pending legacy attestation, with
`data.slot = 5` but `data.target.slot = 0`. -/
def c2PendingLegacyW : Forkchoice.SignedAttestationLegacy :=
  { message := { validatorId := 0,
                 data := { slot := 5, head := { root := 20, slot := 1 },
                           target := { root := 10, slot := 0 },
                           source := { root := 10, slot := 0 } } },
    signature := 0 }

/-- C2 counterexample data: the incoming legacy attestation, with
`data.slot = 2` and `data.target.slot = 1`. -/
def c2IncomingLegacyW : Forkchoice.SignedAttestationLegacy :=
  { message := { validatorId := 0,
                 data := { slot := 2, head := { root := 20, slot := 1 },
                           target := { root := 20, slot := 1 },
                           source := { root := 10, slot := 0 } } },
    signature := 0 }

/-- C2 counterexample data: the head state with one validator, as looked
up by the legacy signature check. -/
def c2HeadStateW : State :=
  { config := { genesisTime := 0 }, slot := 1,
    latestBlockHeader := { slot := 0, proposerIndex := 0, parentRoot := 0,
                           stateRoot := 0, bodyRoot := 0 },
    latestJustified := { root := 10, slot := 0 },
    latestFinalized := { root := 10, slot := 0 },
    historicalBlockHashes := [0], justifiedSlots := [3],
    validators := [{ pubkey := 0, index := 0 }],
    justificationsRoots := [], justificationsValidators := [] }

/-- C2 counterexample data: the legacy store at time 8 with the pending
attestation registered for validator 0. -/
def c2StoreLegacyW : Forkchoice.StoreLegacy :=
  { time := 8, head := 20,
    storage := { blocks := [(10, c2Block10W), (20, c2Block20W)],
                 signedBlocks := [], states := [(20, c2HeadStateW)] },
    latestKnownAttestations := [],
    latestNewAttestations := [(0, c2PendingLegacyW)] }

/-- C2 counterexample: in the legacy `processAttestationLocked`
(attestation.go), the pending-removal and the gossip superseding are
keyed on `data.target.slot`, not `data.slot`: an on-chain attestation of
`data.slot = 2` removes a pending entry of `data.slot = 5` (its
`target.slot` is lower), and the gossip path replaces that same
higher-`data.slot` pending entry — an older slot's message displaces a
newer one, against the claimed invariant. -/
theorem c2_superseding_counterexample :
    c2IncomingLegacyW.message.data.slot < c2PendingLegacyW.message.data.slot ∧
    Statetransition.lookupAssoc
        (Forkchoice.processAttestationLockedLegacy (fun _ _ _ _ => true) (fun _ => 0)
          c2StoreLegacyW c2IncomingLegacyW true).latestNewAttestations 0 = none ∧
    Statetransition.lookupAssoc
        (Forkchoice.processAttestationLockedLegacy (fun _ _ _ _ => true) (fun _ => 0)
          c2StoreLegacyW c2IncomingLegacyW false).latestNewAttestations 0 =
      some c2IncomingLegacyW := by
  decide

/-! ### Claim C3: signing context `data.slot mod 2^32` -/

/-- C3 (amended): the current-generation attestation signature paths all
use signing context `data.slot mod 2^32`: `verifyAttestationSignatureWithState`
(used by `ProcessBlock` for body attestations, the proposer attestation
and, through `verifyAttestationSignature`, for gossip attestations)
depends on the verifier only through its values at context
`data.slot mod 2^32`, and the `ProduceAttestation` signing step depends
on the signer only through its values at that same context.  (The legacy
gossip verifier in `attestation.go` instead uses the epoch-based context
`(target.slot / SlotsPerEpoch) mod 2^32`; see the counterexample.) -/
theorem c3_signing_context (att : Attestation) (data : AttestationData) :
    (∀ (v1 v2 : Nat → Nat → Nat → Nat → Bool) (hashAtt : Attestation → Nat)
        (state : State) (sig : Nat),
      (∀ pk m s, v1 pk (att.data.slot % 2 ^ 32) m s = v2 pk (att.data.slot % 2 ^ 32) m s) →
      Forkchoice.verifyAttestationSignatureWithState v1 hashAtt state att sig =
        Forkchoice.verifyAttestationSignatureWithState v2 hashAtt state att sig) ∧
    (∀ (s1 s2 : Nat → Nat → Option Nat) (hashAtt : Attestation → Nat) (vidx : Nat),
      (∀ m, s1 (data.slot % 2 ^ 32) m = s2 (data.slot % 2 ^ 32) m) →
      Forkchoice.produceAttestationSign s1 hashAtt vidx data =
        Forkchoice.produceAttestationSign s2 hashAtt vidx data) := by
  have h32 : (2 : Nat) ^ 32 = 4294967296 := by norm_num
  constructor
  · intro v1 v2 hashAtt state sig hagree
    rw [h32] at hagree
    unfold Forkchoice.verifyAttestationSignatureWithState
    by_cases hv : att.validatorId ≥ state.validators.length
    · rw [if_pos hv, if_pos hv]
    · rw [if_neg hv, if_neg hv]
      simp only [hagree]
  · intro s1 s2 hashAtt vidx hagree
    rw [h32] at hagree
    unfold Forkchoice.produceAttestationSign
    simp only [hagree]

/-- C3 witness data: attestation data at slot 5 (target slot 5, epoch 0). -/
def c3DataW : AttestationData :=
  { slot := 5, head := { root := 0, slot := 0 },
    target := { root := 0, slot := 5 }, source := { root := 0, slot := 0 } }

/-- C3 witness data: a verifier that accepts exactly signing context 5. -/
def c3V1W : Nat → Nat → Nat → Nat → Bool := fun _ ctx _ _ => decide (ctx = 5)

/-- C3 witness data: a syntactically different verifier with the same
values at signing context 5. -/
def c3V1bW : Nat → Nat → Nat → Nat → Bool := fun _ ctx _ _ => decide (5 = ctx)

/-- C3 witness data: a signer defined at exactly signing context 5. -/
def c3S1W : Nat → Nat → Option Nat := fun ctx m => if ctx = 5 then some (m + 1) else none

/-- C3 witness data: a syntactically different signer with the same
values at signing context 5. -/
def c3S2W : Nat → Nat → Option Nat := fun ctx m => if 5 = ctx then some (m + 1) else none

/-- C3 witness data: a head state with a single validator. -/
def c3HeadStateW : State :=
  { config := { genesisTime := 0 }, slot := 1,
    latestBlockHeader := { slot := 0, proposerIndex := 0, parentRoot := 0,
                           stateRoot := 0, bodyRoot := 0 },
    latestJustified := { root := 0, slot := 0 },
    latestFinalized := { root := 0, slot := 0 },
    historicalBlockHashes := [0], justifiedSlots := [3],
    validators := [{ pubkey := 7, index := 0 }],
    justificationsRoots := [], justificationsValidators := [] }

/-- C3 witness: for the slot-5 attestation, the two verifiers agreeing at
context 5 yield the same verification outcome, and the two signers
agreeing at context 5 yield the same signed attestation. -/
theorem c3_signing_context_witness :
    Forkchoice.verifyAttestationSignatureWithState c3V1W (fun _ => 0) c3HeadStateW
        { validatorId := 0, data := c3DataW } 0 =
      Forkchoice.verifyAttestationSignatureWithState c3V1bW (fun _ => 0) c3HeadStateW
        { validatorId := 0, data := c3DataW } 0 ∧
    Forkchoice.produceAttestationSign c3S1W (fun _ => 0) 0 c3DataW =
      Forkchoice.produceAttestationSign c3S2W (fun _ => 0) 0 c3DataW :=
  ⟨(c3_signing_context { validatorId := 0, data := c3DataW } c3DataW).1
      c3V1W c3V1bW (fun _ => 0) c3HeadStateW 0 (fun _ _ _ => rfl),
   (c3_signing_context { validatorId := 0, data := c3DataW } c3DataW).2
      c3S1W c3S2W (fun _ => 0) 0 (fun _ => rfl)⟩

/-- C3 counterexample data: a legacy gossip attestation envelope at
`data.slot = 5` with `target.slot = 5`. -/
def c3AttLegacyW : Forkchoice.SignedAttestationLegacy :=
  { message := { validatorId := 0, data := c3DataW }, signature := 0 }

/-- C3 counterexample data: a legacy store whose head state holds one
validator. -/
def c3StoreLegacyW : Forkchoice.StoreLegacy :=
  { time := 0, head := 1,
    storage := { blocks := [], signedBlocks := [], states := [(1, c3HeadStateW)] },
    latestKnownAttestations := [], latestNewAttestations := [] }

/-- C3 counterexample data: the all-accepting verifier, which agrees with
`c3V1W` at signing context 5 but not at context 0. -/
def c3VAllW : Nat → Nat → Nat → Nat → Bool := fun _ _ _ _ => true

/-- C3 counterexample: the legacy gossip verifier (attestation.go) does
not use signing context `data.slot mod 2^32`: its context for the slot-5
attestation is `(target.slot / SlotsPerEpoch) mod 2^32 = 0 ≠ 5`, and two
verifiers that agree at context `data.slot mod 2^32` produce different
verification outcomes. -/
theorem c3_signing_context_counterexample :
    (∀ pk m s, c3V1W pk (c3AttLegacyW.message.data.slot % 2 ^ 32) m s =
        c3VAllW pk (c3AttLegacyW.message.data.slot % 2 ^ 32) m s) ∧
    Forkchoice.verifyAttestationSignatureLegacy c3V1W (fun _ => 0)
        c3StoreLegacyW c3AttLegacyW ≠
      Forkchoice.verifyAttestationSignatureLegacy c3VAllW (fun _ => 0)
        c3StoreLegacyW c3AttLegacyW ∧
    Forkchoice.epochSigningContextLegacy c3AttLegacyW.message.data ≠
      c3AttLegacyW.message.data.slot % 2 ^ 32 :=
  ⟨fun _ _ _ => rfl, by decide, by decide⟩

/-! ### Claim C1: transactional `process_block` -/

/-- C1 failing-input data: constant hash collaborators (`hashBlock = 9`,
`hashHeader = 3`, `hashState = 7`). -/
def c1HasherW : Hasher :=
  { hashState := fun _ => 7, hashHeader := fun _ => 3, hashBody := fun _ => 4,
    hashBlock := fun _ => 9, hashAttestation := fun _ => 11,
    hashAttestationData := fun _ => 13 }

/-- C1 failing-input data: signature checking enabled with an
all-rejecting verifier, so `verifyBlockSignatures` fails. -/
def c1EnvW : Forkchoice.Env :=
  { hasher := c1HasherW, verify := fun _ _ _ _ => false, verifySigs := true }

/-- C1 failing-input data: the parent state (genesis with one validator),
stored under the block's parent root 3. -/
def c1ParentStateW : State :=
  Statetransition.GenerateGenesis c1HasherW 0 [{ pubkey := 0, index := 0 }]

/-- C1 failing-input data: a slot-1 block carrying one body attestation,
whose state transition succeeds. -/
def c1BlockW : Block :=
  { slot := 1, proposerIndex := 0, parentRoot := 3, stateRoot := 7,
    body := { attestations :=
      [{ validatorId := 0,
         data := { slot := 0, head := { root := 0, slot := 0 },
                   target := { root := 0, slot := 0 },
                   source := { root := 0, slot := 0 } } }] } }

/-- C1 failing-input data: the signed envelope (one body signature, which
the verifier rejects). -/
def c1EnvelopeW : SignedBlockWithAttestation :=
  { message := { block := c1BlockW, proposerAttestation := none },
    signature := [99] }

/-- C1 failing-input data: a fork-choice store whose storage holds only
the parent state (no blocks, no states besides key 3). -/
def c1StoreW : Forkchoice.Store :=
  { time := 100, genesisTime := 0, numValidators := 1, head := 0, safeTarget := 0,
    latestJustified := { root := 0, slot := 0 },
    latestFinalized := { root := 0, slot := 0 },
    storage := { blocks := [], signedBlocks := [],
                 states := [(3, c1ParentStateW)] },
    latestKnownAttestations := [],
    latestNewAttestations := [] }

/-- C1 (code bug): `ProcessBlock` (block.go) calls `PutState` before
signature verification, so a block whose body signature fails leaves a
partial insert behind: the call errors with `bodySigInvalid 0`, yet the
post-state is now stored under the block root 9 while the block itself is
not — both the transactionality guarantee and the block-iff-state
storage invariant are violated. -/
theorem c1_transactional_process_block :
    (Forkchoice.ProcessBlock c1EnvW c1StoreW c1EnvelopeW).2 =
      some (Forkchoice.FCErr.bodySigInvalid 0) ∧
    Forkchoice.getState c1StoreW.storage 9 = none ∧
    (Forkchoice.getState
        (Forkchoice.ProcessBlock c1EnvW c1StoreW c1EnvelopeW).1.storage 9).isSome = true ∧
    Forkchoice.getBlock
        (Forkchoice.ProcessBlock c1EnvW c1StoreW c1EnvelopeW).1.storage 9 = none := by
  decide

/-! ### Claim C8: `process_block` idempotence -/

lemma attUpdatePhase_storage (c : Forkchoice.Store) (sa : Forkchoice.SignedAttestation)
    (b : Bool) : (Forkchoice.attUpdatePhase c sa b).storage = c.storage := by
  unfold Forkchoice.attUpdatePhase
  cases b with
  | true =>
      rw [if_pos rfl]
      cases hk : Statetransition.lookupAssoc c.latestKnownAttestations sa.validatorId with
      | none =>
          simp only [hk]
          cases hn : Statetransition.lookupAssoc c.latestNewAttestations sa.validatorId with
          | none => simp only [hn]
          | some newAtt =>
              simp only [hn]
              by_cases hle : newAtt.message.slot ≤ sa.message.slot
              · rw [if_pos hle]
              · rw [if_neg hle]
      | some existing =>
          simp only [hk]
          by_cases hlt : existing.message.slot < sa.message.slot
          · rw [if_pos hlt]
            cases hn : Statetransition.lookupAssoc c.latestNewAttestations sa.validatorId with
            | none => simp only [hn]
            | some newAtt =>
                simp only [hn]
                by_cases hle : newAtt.message.slot ≤ sa.message.slot
                · rw [if_pos hle]
                · rw [if_neg hle]
          · rw [if_neg hlt]
            cases hn : Statetransition.lookupAssoc c.latestNewAttestations sa.validatorId with
            | none => simp only [hn]
            | some newAtt =>
                simp only [hn]
                by_cases hle : newAtt.message.slot ≤ sa.message.slot
                · rw [if_pos hle]
                · rw [if_neg hle]
  | false =>
      simp only [Bool.false_eq_true, if_false]
      by_cases ht : sa.message.slot > c.time / IntervalsPerSlot
      · rw [if_pos ht]
      · rw [if_neg ht]
        cases hn : Statetransition.lookupAssoc c.latestNewAttestations sa.validatorId with
        | none => simp only [hn]
        | some existing =>
            simp only [hn]
            by_cases hlt : existing.message.slot < sa.message.slot
            · rw [if_pos hlt]
            · rw [if_neg hlt]

lemma processAttestationLocked_storage (env : Forkchoice.Env) (c : Forkchoice.Store)
    (sa : Forkchoice.SignedAttestation) (b : Bool) :
    (Forkchoice.processAttestationLocked env c sa b).storage = c.storage := by
  unfold Forkchoice.processAttestationLocked
  by_cases hv : (Forkchoice.validateAttestationData c sa.message).isSome = true
  · rw [if_pos hv]
  · rw [if_neg hv]
    by_cases hg : (!b && env.verifySigs) = true
    · rw [if_pos hg]
      by_cases hs : (Forkchoice.verifyAttestationSignature env c sa).isSome = true
      · rw [if_pos hs]
      · rw [if_neg hs]
        exact attUpdatePhase_storage c sa b
    · rw [if_neg hg]
      exact attUpdatePhase_storage c sa b

lemma foldlAttLocked_storage (env : Forkchoice.Env) (l : List (Attestation × Nat)) :
    ∀ c : Forkchoice.Store,
      (l.foldl
        (fun st p =>
          Forkchoice.processAttestationLocked env st
            { validatorId := p.1.validatorId, message := p.1.data, signature := p.2 } true)
        c).storage = c.storage := by
  induction l with
  | nil => intro c; rfl
  | cons p t ih =>
      intro c
      rw [List.foldl_cons, ih, processAttestationLocked_storage]

lemma updateHeadLocked_storage (c : Forkchoice.Store) :
    (Forkchoice.updateHeadLocked c).storage = c.storage := rfl

/-- A first successful `ProcessBlock` leaves the block stored under its
root. -/
lemma processBlock_ok_block_present (env : Forkchoice.Env) (c : Forkchoice.Store)
    (e : SignedBlockWithAttestation)
    (h : (Forkchoice.ProcessBlock env c e).2 = none) :
    (Forkchoice.getBlock (Forkchoice.ProcessBlock env c e).1.storage
      (env.hasher.hashBlock e.message.block)).isSome = true := by
  simp only [Forkchoice.ProcessBlock] at h ⊢
  split at h
  next hseen =>
    rw [if_pos hseen]
    exact hseen
  next hseen =>
    rw [if_neg hseen]
    split at h
    next hp => simp at h
    next ps hp =>
      split at h
      next err hst => simp at h
      next st hst =>
        split at h
        next hsig => simp at h
        next hsig =>
          rw [if_neg hsig]
          split at h
          next err hv => simp at h
          next hv =>
            split at h
            next hpa =>
              simp only [Forkchoice.updateHeadLocked, foldlAttLocked_storage,
                Forkchoice.getBlock, Forkchoice.putState, Forkchoice.putSignedBlock,
                Forkchoice.putBlock]
              rw [Statetransition.lookupAssoc_setAssoc_self]
              rfl
            next pa hpa =>
              simp only [processAttestationLocked_storage,
                Forkchoice.updateHeadLocked, foldlAttLocked_storage,
                Forkchoice.getBlock, Forkchoice.putState, Forkchoice.putSignedBlock,
                Forkchoice.putBlock]
              rw [Statetransition.lookupAssoc_setAssoc_self]
              rfl

/-- A store holding the envelope's block under its root makes
`ProcessBlock` a no-op returning no error. -/
lemma processBlock_seen (env : Forkchoice.Env) (c : Forkchoice.Store)
    (e : SignedBlockWithAttestation)
    (h : (Forkchoice.getBlock c.storage (env.hasher.hashBlock e.message.block)).isSome = true) :
    Forkchoice.ProcessBlock env c e = (c, none) := by
  simp only [Forkchoice.ProcessBlock]
  rw [if_pos h]

/-- C8 (amended): `process_block` is idempotent after a success: when the
first call returns no error, submitting the same envelope again hits the
already-seen check and is a no-op that again returns no error.  (The
unconditional claim is refuted by any envelope whose first submission
fails, e.g. one whose parent state is unknown; see the counterexample.) -/
theorem c8_idempotent_after_success (env : Forkchoice.Env) (c : Forkchoice.Store)
    (e : SignedBlockWithAttestation)
    (h : (Forkchoice.ProcessBlock env c e).2 = none) :
    Forkchoice.ProcessBlock env (Forkchoice.ProcessBlock env c e).1 e =
      ((Forkchoice.ProcessBlock env c e).1, none) :=
  processBlock_seen env _ e (processBlock_ok_block_present env c e h)

/-- C8 witness data: constant hash collaborators. -/
def c8HasherW : Hasher :=
  { hashState := fun _ => 7, hashHeader := fun _ => 3, hashBody := fun _ => 4,
    hashBlock := fun _ => 9, hashAttestation := fun _ => 11,
    hashAttestationData := fun _ => 13 }

/-- C8 witness data: signature checking enabled with an all-accepting
verifier. -/
def c8EnvW : Forkchoice.Env :=
  { hasher := c8HasherW, verify := fun _ _ _ _ => true, verifySigs := true }

/-- C8 witness data: the parent state (genesis with one validator),
stored under the block's parent root 3. -/
def c8ParentStateW : State :=
  Statetransition.GenerateGenesis c8HasherW 0 [{ pubkey := 0, index := 0 }]

/-- C8 witness data: an empty-bodied slot-1 block whose first submission
succeeds. -/
def c8EnvelopeW : SignedBlockWithAttestation :=
  { message := { block := { slot := 1, proposerIndex := 0, parentRoot := 3, stateRoot := 7,
                            body := { attestations := [] } },
                 proposerAttestation := none },
    signature := [] }

/-- C8 witness data: a fork-choice store holding only the parent state. -/
def c8StoreW : Forkchoice.Store :=
  { time := 100, genesisTime := 0, numValidators := 1, head := 0, safeTarget := 0,
    latestJustified := { root := 0, slot := 0 },
    latestFinalized := { root := 0, slot := 0 },
    storage := { blocks := [], signedBlocks := [],
                 states := [(3, c8ParentStateW)] },
    latestKnownAttestations := [],
    latestNewAttestations := [] }

/-- C8 witness: the concrete first call succeeds, and resubmitting the
same envelope is a no-op returning no error. -/
theorem c8_idempotent_after_success_witness :
    Forkchoice.ProcessBlock c8EnvW
        (Forkchoice.ProcessBlock c8EnvW c8StoreW c8EnvelopeW).1 c8EnvelopeW =
      ((Forkchoice.ProcessBlock c8EnvW c8StoreW c8EnvelopeW).1, none) :=
  c8_idempotent_after_success c8EnvW c8StoreW c8EnvelopeW (by decide)

/-- C8 counterexample data: a completely empty fork-choice store. -/
def c8EmptyStoreW : Forkchoice.Store :=
  { time := 0, genesisTime := 0, numValidators := 0, head := 0, safeTarget := 0,
    latestJustified := { root := 0, slot := 0 },
    latestFinalized := { root := 0, slot := 0 },
    storage := { blocks := [], signedBlocks := [], states := [] },
    latestKnownAttestations := [],
    latestNewAttestations := [] }

/-- C8 counterexample: "returns OK both times" does not hold for every
envelope: submitting `c8EnvelopeW` to an empty store fails already on the
first call (its parent state is unknown), so the claim's universal
statement is false as written. -/
theorem c8_idempotence_counterexample :
    (Forkchoice.ProcessBlock c8EnvW c8EmptyStoreW c8EnvelopeW).2 =
      some Forkchoice.FCErr.parentStateNotFound := by
  decide

/-! ### Claim C6: the GHOST walk of `get_head`

Spec-side definitions, following the wording of §4.D step 4: walk down
from the root, at each node selecting the child of highest weight among
the children whose weight reaches `min_score`, ties broken by higher
slot, then by lexicographically greater root; stop at the first node
with no qualifying children. -/

/-- Spec §4.D: the qualifying children of `current` — the stored blocks
whose parent is `current` and whose vote weight reaches `min_score`. -/
def specQualifyingChildren (blocks : List (Nat × Block)) (w : List (Nat × Nat))
    (minScore : Int) (current : Nat) : List Nat :=
  (blocks.filter (fun p => decide (p.2.parentRoot = current) &&
    decide (minScore ≤ (Forkchoice.weightOf w p.1 : Int)))).map Prod.fst

/-- Spec §4.D: child `a` beats child `b` when it has higher weight, or
equal weight and higher slot, or equal weight and slot and
lexicographically greater root (Boolean form). -/
def specBetter (blocks : List (Nat × Block)) (w : List (Nat × Nat)) (a b : Nat) : Bool :=
  decide (Forkchoice.weightOf w a > Forkchoice.weightOf w b) ||
  (decide (Forkchoice.weightOf w a = Forkchoice.weightOf w b) &&
    decide (Forkchoice.blockSlot blocks a > Forkchoice.blockSlot blocks b)) ||
  (decide (Forkchoice.weightOf w a = Forkchoice.weightOf w b) &&
    decide (Forkchoice.blockSlot blocks a = Forkchoice.blockSlot blocks b) &&
    decide (a > b))

/-- Spec §4.D: the strict "beats" order as a proposition. -/
def SpecBetterP (blocks : List (Nat × Block)) (w : List (Nat × Nat)) (a b : Nat) : Prop :=
  Forkchoice.weightOf w a > Forkchoice.weightOf w b ∨
  (Forkchoice.weightOf w a = Forkchoice.weightOf w b ∧
    Forkchoice.blockSlot blocks a > Forkchoice.blockSlot blocks b) ∨
  (Forkchoice.weightOf w a = Forkchoice.weightOf w b ∧
    Forkchoice.blockSlot blocks a = Forkchoice.blockSlot blocks b ∧ a > b)

/-- Spec §4.D: the selected child among a nonempty children list. -/
def specSelect (blocks : List (Nat × Block)) (w : List (Nat × Nat))
    (c : Nat) (rest : List Nat) : Nat :=
  rest.foldl (fun best x => if specBetter blocks w x best then x else best) c

/-- Spec §4.D: the walk — descend to the selected qualifying child until
a node has none. -/
def specGhostWalk (blocks : List (Nat × Block)) (w : List (Nat × Nat))
    (minScore : Int) : Nat → Nat → Nat
  | 0, current => current
  | fuel + 1, current =>
      match specQualifyingChildren blocks w minScore current with
      | [] => current
      | c :: rest => specGhostWalk blocks w minScore fuel (specSelect blocks w c rest)

lemma specBetterP_iff (blocks : List (Nat × Block)) (w : List (Nat × Nat)) (a b : Nat) :
    specBetter blocks w a b = true ↔ SpecBetterP blocks w a b := by
  simp only [specBetter, SpecBetterP, Bool.or_eq_true, Bool.and_eq_true, decide_eq_true_eq]
  tauto

lemma specBetterP_trans (blocks : List (Nat × Block)) (w : List (Nat × Nat)) (a b c : Nat)
    (h1 : SpecBetterP blocks w a b) (h2 : SpecBetterP blocks w b c) :
    SpecBetterP blocks w a c := by
  unfold SpecBetterP at h1 h2 ⊢
  omega

lemma specBetterP_trichotomy (blocks : List (Nat × Block)) (w : List (Nat × Nat)) (a b : Nat) :
    a = b ∨ SpecBetterP blocks w a b ∨ SpecBetterP blocks w b a := by
  unfold SpecBetterP
  omega

lemma specBetterP_irrefl (blocks : List (Nat × Block)) (w : List (Nat × Nat)) (a : Nat) :
    ¬ SpecBetterP blocks w a a := by
  unfold SpecBetterP
  omega

/-- The left fold of the walk picks a child no other child beats. -/
lemma specSelect_maximal (blocks : List (Nat × Block)) (w : List (Nat × Nat)) :
    ∀ (rest : List Nat) (acc : Nat),
      specSelect blocks w acc rest ∈ acc :: rest ∧
      ∀ y ∈ acc :: rest, ¬ SpecBetterP blocks w y (specSelect blocks w acc rest) := by
  intro rest
  induction rest with
  | nil =>
      intro acc
      refine ⟨List.mem_cons_self _ _, ?_⟩
      intro y hy
      rw [List.mem_singleton] at hy
      subst hy
      exact specBetterP_irrefl blocks w y
  | cons x t ih =>
      intro acc
      by_cases hb : specBetter blocks w x acc = true
      · have hsel : specSelect blocks w acc (x :: t) = specSelect blocks w x t := by
          simp [specSelect, hb]
        obtain ⟨hm, hmax⟩ := ih x
        rw [hsel]
        refine ⟨?_, ?_⟩
        · rcases List.mem_cons.mp hm with h | h
          · rw [h]
            exact List.mem_cons_of_mem _ (List.mem_cons_self _ _)
          · exact List.mem_cons_of_mem _ (List.mem_cons_of_mem _ h)
        · intro y hy hP
          rcases List.mem_cons.mp hy with hy1 | hy2
          · subst hy1
            have hxacc : SpecBetterP blocks w x y := (specBetterP_iff blocks w x y).mp hb
            exact hmax x (List.mem_cons_self _ _)
              (specBetterP_trans blocks w x y _ hxacc hP)
          · exact hmax y hy2 hP
      · have hsel : specSelect blocks w acc (x :: t) = specSelect blocks w acc t := by
          simp [specSelect, hb]
        obtain ⟨hm, hmax⟩ := ih acc
        rw [hsel]
        refine ⟨?_, ?_⟩
        · rcases List.mem_cons.mp hm with h | h
          · rw [h]
            exact List.mem_cons_self _ _
          · exact List.mem_cons_of_mem _ (List.mem_cons_of_mem _ h)
        · intro y hy hP
          rcases List.mem_cons.mp hy with hy1 | hy2
          · subst hy1
            exact hmax y (List.mem_cons_self _ _) hP
          · rcases List.mem_cons.mp hy2 with hy2a | hy2b
            · subst hy2a
              have hnx : ¬ SpecBetterP blocks w y acc := fun hP2 =>
                absurd ((specBetterP_iff blocks w y acc).mpr hP2) hb
              rcases specBetterP_trichotomy blocks w y acc with he | hxa | hax
              · subst he
                exact hmax y (List.mem_cons_self _ _) hP
              · exact hnx hxa
              · exact hmax acc (List.mem_cons_self _ _)
                  (specBetterP_trans blocks w acc y _ hax hP)
            · exact hmax y (List.mem_cons_of_mem _ hy2b) hP

/-- `childrenMap` lookup agrees with the spec's qualifying-children
filter (fold generalization). -/
lemma buildChildren_foldl_lookup (w : List (Nat × Nat)) (minScore : Int) (q : Nat) :
    ∀ (l : List (Nat × Block)) (cm : List (Nat × List Nat)),
      (Statetransition.lookupAssoc
          (l.foldl (fun cm p =>
            if (Forkchoice.weightOf w p.1 : Int) ≥ minScore then
              Statetransition.setAssoc cm p.2.parentRoot
                ((Statetransition.lookupAssoc cm p.2.parentRoot).getD [] ++ [p.1])
            else cm) cm) q).getD [] =
        (Statetransition.lookupAssoc cm q).getD [] ++
          (l.filter (fun p => decide (p.2.parentRoot = q) &&
            decide (minScore ≤ (Forkchoice.weightOf w p.1 : Int)))).map Prod.fst := by
  intro l
  induction l with
  | nil => intro cm; simp
  | cons p t ih =>
      intro cm
      rw [List.foldl_cons]
      by_cases hw : (Forkchoice.weightOf w p.1 : Int) ≥ minScore
      · rw [if_pos hw]
        rw [ih]
        by_cases hq : p.2.parentRoot = q
        · rw [hq, Statetransition.lookupAssoc_setAssoc_self]
          rw [ge_iff_le] at hw
          simp [List.filter_cons, hq, hw]
        · rw [Statetransition.lookupAssoc_setAssoc_ne _ _ _ _ (Ne.symm hq)]
          simp [List.filter_cons, hq]
      · rw [if_neg hw]
        rw [ih]
        rw [ge_iff_le] at hw
        simp [List.filter_cons, hw]

lemma buildChildren_lookup (blocks : List (Nat × Block)) (w : List (Nat × Nat))
    (minScore : Int) (q : Nat) :
    (Statetransition.lookupAssoc (Forkchoice.buildChildren blocks w minScore) q).getD [] =
      specQualifyingChildren blocks w minScore q := by
  have h := buildChildren_foldl_lookup w minScore q blocks []
  simpa [Forkchoice.buildChildren, specQualifyingChildren] using h

lemma specGhostWalk_succ (blocks : List (Nat × Block)) (w : List (Nat × Nat))
    (minScore : Int) (n current : Nat) :
    specGhostWalk blocks w minScore (n + 1) current =
      (match specQualifyingChildren blocks w minScore current with
       | [] => current
       | c :: rest => specGhostWalk blocks w minScore n (specSelect blocks w c rest)) := rfl

/-- The code's descent loop equals the spec's walk. -/
lemma walkDown_eq_specGhostWalk (blocks : List (Nat × Block)) (w : List (Nat × Nat))
    (minScore : Int) :
    ∀ (fuel current : Nat),
      Forkchoice.walkDown blocks w (Forkchoice.buildChildren blocks w minScore) fuel current =
        specGhostWalk blocks w minScore fuel current := by
  intro fuel
  induction fuel with
  | zero => intro current; rfl
  | succ n ih =>
      intro current
      show (match (Statetransition.lookupAssoc
              (Forkchoice.buildChildren blocks w minScore) current).getD [] with
            | [] => current
            | c :: rest =>
                Forkchoice.walkDown blocks w (Forkchoice.buildChildren blocks w minScore) n
                  (rest.foldl
                    (fun best x => if Forkchoice.betterChild blocks w x best then x else best)
                    c)) =
          specGhostWalk blocks w minScore (n + 1) current
      rw [buildChildren_lookup, specGhostWalk_succ]
      cases h : specQualifyingChildren blocks w minScore current with
      | nil => rfl
      | cons c rest => exact ih (specSelect blocks w c rest)

/-- C6 (amended): when the attestation map is nonempty and the resolved
root is a known block, `get_head` performs exactly the walk described by
the spec — from the resolved root, descending to the selected qualifying
child until none remains — and the selected child is one that no other
qualifying child beats (higher weight, then higher slot, then greater
root).  (When the attestation map is empty the code returns the resolved
root without walking — even when qualifying children exist at
`min_score = 0` — and likewise when the root block is unknown; see the
counterexample.) -/
theorem c6_ghost_walk (fuel : Nat) (store : Forkchoice.Storage) (root : Nat)
    (atts : List (Nat × Forkchoice.SignedAttestation)) (minScore : Int) (rb : Block)
    (hne : atts ≠ [])
    (hroot : Statetransition.lookupAssoc store.blocks
        (Forkchoice.resolveZeroRoot store.blocks root) = some rb) :
    Forkchoice.GetForkChoiceHead fuel store root atts minScore =
      specGhostWalk store.blocks
        (Forkchoice.computeVoteWeights store.blocks rb.slot fuel atts) minScore fuel
        (Forkchoice.resolveZeroRoot store.blocks root) ∧
    (∀ (w : List (Nat × Nat)) (current c : Nat) (rest : List Nat),
      specQualifyingChildren store.blocks w minScore current = c :: rest →
      specSelect store.blocks w c rest ∈ c :: rest ∧
      ∀ y ∈ c :: rest, ¬ SpecBetterP store.blocks w y (specSelect store.blocks w c rest)) := by
  constructor
  · have hie : atts.isEmpty = false := by
      cases atts with
      | nil => exact absurd rfl hne
      | cons a t => rfl
    simp only [Forkchoice.GetForkChoiceHead, hie, Bool.false_eq_true, if_false, hroot]
    exact walkDown_eq_specGhostWalk store.blocks _ minScore fuel _
  · intro w current c rest hch
    exact specSelect_maximal store.blocks w rest c

/-- C6 witness data: the slot-0 block at root 10 (parent 99, not stored). -/
def c6Block10W : Block :=
  { slot := 0, proposerIndex := 0, parentRoot := 99, stateRoot := 0,
    body := { attestations := [] } }

/-- C6 witness data: the slot-1 block at root 20, child of 10. -/
def c6Block20W : Block :=
  { slot := 1, proposerIndex := 0, parentRoot := 10, stateRoot := 0,
    body := { attestations := [] } }

/-- C6 witness data: storage holding the two-block chain. -/
def c6StorageW : Forkchoice.Storage :=
  { blocks := [(10, c6Block10W), (20, c6Block20W)], signedBlocks := [], states := [] }

/-- C6 witness data: one attestation voting for head 20. -/
def c6AttsW : List (Nat × Forkchoice.SignedAttestation) :=
  [(0, { validatorId := 0,
         message := { slot := 1, head := { root := 20, slot := 1 },
                      target := { root := 20, slot := 1 },
                      source := { root := 10, slot := 0 } },
         signature := 0 })]

/-- C6 witness: on the concrete two-block store with one attestation,
`get_head` from root 10 equals the spec's walk. -/
theorem c6_ghost_walk_witness :
    Forkchoice.GetForkChoiceHead 3 c6StorageW 10 c6AttsW 0 =
      specGhostWalk c6StorageW.blocks
        (Forkchoice.computeVoteWeights c6StorageW.blocks c6Block10W.slot 3 c6AttsW) 0 3
        (Forkchoice.resolveZeroRoot c6StorageW.blocks 10) :=
  (c6_ghost_walk 3 c6StorageW 10 c6AttsW 0 c6Block10W (by decide) (by decide)).1

/-- C6 counterexample: with an empty attestation map and `min_score = 0`,
`get_head` returns the starting root 10 without walking, although the
spec's walk would descend to the qualifying weight-0 child 20 — so the
claim does not hold for every attestation map. -/
theorem c6_ghost_walk_counterexample :
    Forkchoice.GetForkChoiceHead 3 c6StorageW 10 [] 0 = 10 ∧
    specGhostWalk c6StorageW.blocks
        (Forkchoice.computeVoteWeights c6StorageW.blocks 0 3 []) 0 3 10 = 20 := by
  decide

end Gean
